import Mathlib

/-!
Verification of the Google Drive document-store engine (DriveHandler,
LRUCache, change-log serialization) against its specification.

The TypeScript sources are shallowly embedded: class state becomes explicit
state records, mutation becomes state-returning functions, exceptions become
explicit result constructors, and the remote object store / retry outcomes
are supplied as explicit scripts so that the sequential control flow of the
source is reproduced faithfully.
-/

set_option maxHeartbeats 1000000

/-! ## Data model (types.ts) -/

/-- Location pointer for lazy loading (interface FilePointer). -/
structure FilePointer where
  fileId : String
deriving DecidableEq, Repr

/-- A single change entry in the append-only log (interface ChangeEntry).
Document bodies are opaque payloads, modeled as strings.  The optional
boolean field `deleted` is modeled as a plain Bool: the engine reads it
only through truthiness coercion, under which absent and false coincide. -/
structure ChangeEntry where
  seq : Nat
  id : String
  rev : String
  deleted : Bool := false
  doc : Option String := none
  timestamp : Nat
deriving DecidableEq, Repr

/-- In-memory index entry (interface IndexEntry). -/
structure IndexEntry where
  rev : String
  seq : Nat
  deleted : Bool := false
  location : FilePointer
deriving DecidableEq, Repr

/-- Metadata file content (interface MetaData).  The untyped legacy field
`snapshotId`, accessed in the source through an any-cast, is carried as
`legacySnapshotId`. -/
structure MetaData where
  seq : Nat
  changeLogIds : List String
  snapshotIndexId : Option String
  lastCompaction : Option Nat
  dbName : String
  legacySnapshotId : Option String := none
deriving DecidableEq, Repr

/-! ## Insertion-ordered map primitives

A JavaScript Map / plain object is modeled as an association list in
insertion order: the head is the oldest (first-inserted) binding, the last
element is the newest. -/

/-- Model of Map.get / property read: value of the first binding for `k`. -/
def mapFind {K V : Type} [DecidableEq K] (m : List (K × V)) (k : K) : Option V :=
  (m.find? (fun p => p.1 = k)).map (·.2)

/-- Model of Map.delete: remove the binding for `k`, keeping the order of the rest. -/
def mapDelete {K V : Type} [DecidableEq K] (m : List (K × V)) (k : K) : List (K × V) :=
  m.eraseP (fun p => p.1 = k)

/-- Model of Map.set / property write: update in place if `k` is bound, else append
at the end (newest position). -/
def mapSet {K V : Type} [DecidableEq K] (m : List (K × V)) (k : K) (v : V) : List (K × V) :=
  if m.any (fun p => p.1 = k) then
    m.map (fun p => if p.1 = k then (k, v) else p)
  else
    m ++ [(k, v)]

/-! ## LRUCache (cache.ts) -/

/-- Simple least-recently-used cache (class LRUCache).  `map` is the
backing insertion-ordered Map; its head is the least recently used entry. -/
structure LRUCache (K V : Type) where
  capacity : Nat
  map : List (K × V)
deriving DecidableEq, Repr

/-- new LRUCache(capacity). -/
def LRUCache.empty (K V : Type) (capacity : Nat) : LRUCache K V :=
  { capacity := capacity, map := [] }

/-- Method LRUCache.get: on a hit, delete and re-add the binding at the end
(most recently used) and return the value; on a miss return undefined. -/
def LRUCache.get {K V : Type} [DecidableEq K] (c : LRUCache K V) (k : K) :
    Option V × LRUCache K V :=
  match mapFind c.map k with
  | some v => (some v, { c with map := mapSet (mapDelete c.map k) k v })
  | none => (none, c)

/-- Method LRUCache.put: delete an existing binding for the key, else when at
capacity evict the first (least recently used) binding if one exists;
then insert the new binding at the end. -/
def LRUCache.put {K V : Type} [DecidableEq K] (c : LRUCache K V) (k : K) (v : V) :
    LRUCache K V :=
  let m :=
    if c.map.any (fun p => p.1 = k) then
      mapDelete c.map k
    else if c.capacity ≤ c.map.length then
      match c.map with
      | [] => []
      | _ :: rest => rest
    else
      c.map
  { c with map := mapSet m k v }

/-- Method LRUCache.remove. -/
def LRUCache.remove {K V : Type} [DecidableEq K] (c : LRUCache K V) (k : K) :
    LRUCache K V :=
  { c with map := mapDelete c.map k }

/-- Method LRUCache.clear. -/
def LRUCache.clear {K V : Type} (c : LRUCache K V) : LRUCache K V :=
  { c with map := [] }

/-- One externally visible cache operation, for stating invariants over
arbitrary operation sequences. -/
inductive LruOp (K V : Type)
  | put (k : K) (v : V)
  | get (k : K)
  | remove (k : K)

/-- Apply one operation to the cache state. -/
def LruOp.apply {K V : Type} [DecidableEq K] (c : LRUCache K V) : LruOp K V → LRUCache K V
  | .put k v => c.put k v
  | .get k => (c.get k).2
  | .remove k => c.remove k

/-- Run a sequence of cache operations from a given state. -/
def LRUCache.run {K V : Type} [DecidableEq K] (c : LRUCache K V) (ops : List (LruOp K V)) :
    LRUCache K V :=
  ops.foldl LruOp.apply c

/-! ## DriveHandler (drive.ts, first revision in part_004) -/

namespace DriveHandler

/-- The in-memory index `Record<string, IndexEntry>`. -/
abbrev Index := List (String × IndexEntry)

/-- Model of parseInt(s, 10) on the leading decimal digits of a string; none models
NaN (no leading digit). -/
def parseIntDec (s : String) : Option Nat :=
  let ds := s.toList.takeWhile Char.isDigit
  if ds = [] then none
  else some (ds.foldl (fun n c => n * 10 + (c.toNat - 48)) 0)

/-- Generation number of a revision string:
parseInt(rev.split('-')[0], 10).  The first split component is the prefix
of the string before its first dash (the whole string when it has none). -/
def revGen (rev : String) : Option Nat :=
  parseIntDec (String.mk (rev.toList.takeWhile (fun c => ¬ c = '-')))

/-- The error object built by checkConflicts: a fixed message with status
409 and name conflict.  No field of it depends on the offending entry. -/
structure ConflictError where
  status : Nat
  name : String
  message : String
deriving DecidableEq, Repr

/-- The one conflict error value the source ever constructs. -/
def conflictError : ConflictError :=
  { status := 409, name := "conflict", message := "Document update conflict" }

/-- Whether one pending change is stale against the index: an existing
entry whose revision generation is greater than or equal to the generation
of the pending revision.  A NaN on either side makes the comparison false,
as in JavaScript. -/
def isStale [DecidableEq String] (index : Index) (c : ChangeEntry) : Bool :=
  match mapFind index c.id with
  | some existing =>
    match revGen existing.rev, revGen c.rev with
    | some cur, some new => decide (new ≤ cur)
    | _, _ => false
  | none => false

/-- Method DriveHandler.checkConflicts: walk the batch and throw the conflict
error at the first stale entry; return none when the whole batch passes. -/
def checkConflicts (index : Index) (changes : List ChangeEntry) : Option ConflictError :=
  changes.findSome? (fun c => if isStale index c then some conflictError else none)

/-- The resequencing loop of appendChanges (and, equivalently, the initial
stamping by the adapter `_bulkDocs`, which assigns
getNextSeq() + changes.length to each pushed change):
currentSeq starts at meta.seq and each change receives ++currentSeq. -/
def stampSeqs (s : Nat) : List ChangeEntry → List ChangeEntry
  | [] => []
  | c :: rest => { c with seq := s + 1 } :: stampSeqs (s + 1) rest

/-- Method DriveHandler.updateIndex: unconditionally overwrite the entry for
change.id with the metadata of this change. -/
def updateIndex (index : Index) (change : ChangeEntry) (fileId : String) : Index :=
  mapSet index change.id
    { rev := change.rev, seq := change.seq, deleted := change.deleted,
      location := { fileId := fileId } }

/-- Replay of one downloaded change log inside load(): apply each entry to
the index in file order.  (The accompanying document-cache invalidation
does not touch the index and is modeled with the cache, below.) -/
def replayLog (index : Index) (lg : String × List ChangeEntry) : Index :=
  lg.2.foldl (fun ix c => updateIndex ix c lg.1) index

/-- Replay of the change logs of meta.changeLogIds, in list order, each a
pair of log file id and parsed entries. -/
def replayLogs (index : Index) (logs : List (String × List ChangeEntry)) : Index :=
  logs.foldl replayLog index

/-- The flattened replay stream: every entry of every log, in replay
order, tagged with the log file id it came from. -/
def flatStream (logs : List (String × List ChangeEntry)) : List (String × ChangeEntry) :=
  logs.flatMap (fun lg => lg.2.map (fun c => (lg.1, c)))

/-- Apply a flattened replay stream to the index. -/
def applyStream (index : Index) (stream : List (String × ChangeEntry)) : Index :=
  stream.foldl (fun ix p => updateIndex ix p.2 p.1) index

/-- The index entry that replaying one tagged change installs. -/
def entryOf (p : String × ChangeEntry) : IndexEntry :=
  { rev := p.2.rev, seq := p.2.seq, deleted := p.2.deleted,
    location := { fileId := p.1 } }

/-- The replayed entries of a stream that target a given document id. -/
def occurrencesFor (id : String) (stream : List (String × ChangeEntry)) :
    List (String × ChangeEntry) :=
  stream.filter (fun p => p.2.id = id)

/-! ### appendChanges retry loop

The loop body depends on the outside world through the outcome of each
tryAppendChanges attempt and, on a retryable failure, through the state
that the intervening load() installs.  Both are supplied as a script
indexed by the attempt counter, which reproduces the sequential control
flow of the source exactly. -/

/-- MAX_RETRIES of appendChanges and atomicUpdateMeta. -/
def MAX_RETRIES : Nat := 5

/-- Outcome of one tryAppendChanges or saveMeta call: success, an
exception carrying an HTTP status, or an exception without a status field
(for example a network error). -/
inductive TryOutcome
  | ok
  | errStatus (status : Nat)
  | errNoStatus
deriving DecidableEq, Repr

/-- The 412/409 test of the catch handler. -/
def retryableStatus (s : Nat) : Bool := s = 412 || s = 409

/-- What one iteration of the append retry loop observes: the outcome of
its tryAppendChanges call and, if that fails retryably, the meta and index
that the load() call of the catch handler leaves behind. -/
structure AppendAttempt where
  outcome : TryOutcome
  reloadMeta : MetaData
  reloadIndex : Index

/-- Result of appendChanges: the batch committed (with its final
stamping), the conflict thrown by checkConflicts, a non-retryable error
rethrown to the caller, or the final failure after MAX_RETRIES. -/
inductive AppendResult
  | success (committed : List ChangeEntry)
  | conflict (e : ConflictError)
  | propagated (status : Option Nat)
  | exhausted
deriving DecidableEq, Repr

/-- The while loop of DriveHandler.appendChanges, with the remaining
attempt budget MAX_RETRIES - attempt made explicit as fuel.  On a
412/409 failure the handler reloads, re-validates via checkConflicts
(whose error is thrown to the caller), restamps the sequence numbers from
the reloaded meta.seq, increments the attempt counter and retries after a
randomized backoff (timing is not modeled); any other failure is
rethrown; exhausting MAX_RETRIES throws Failed-to-append-changes. -/
def appendLoop (script : Nat → AppendAttempt) : Nat → Nat → List ChangeEntry → AppendResult
  | 0, _, _ => .exhausted
  | fuel + 1, attempt, changes =>
    let a := script attempt
    match a.outcome with
    | .ok => .success changes
    | .errNoStatus => .propagated none
    | .errStatus s =>
      if retryableStatus s then
        match checkConflicts a.reloadIndex changes with
        | some e => .conflict e
        | none =>
          appendLoop script fuel (attempt + 1) (stampSeqs a.reloadMeta.seq changes)
      else .propagated (some s)

/-- Method DriveHandler.appendChanges starts the loop at attempt 0 with the full
MAX_RETRIES budget. -/
def appendChanges (script : Nat → AppendAttempt) (changes : List ChangeEntry) :
    AppendResult :=
  appendLoop script MAX_RETRIES 0 changes

end DriveHandler

namespace DriveHandler

/-! ### tryAppendChanges commit (success path)

Success of tryAppendChanges is: the log file has been created (its id is a
parameter), the conditional saveMeta succeeded, and the local state is
updated.  The compaction check at the end only spawns a background task
and is modeled separately (compactRun). -/

/-- The local state of a DriveHandler that the write path mutates. -/
structure LocalState where
  meta : MetaData
  index : Index
  docCache : LRUCache String String
deriving Repr

/-- The per-entry cache update of tryAppendChanges step 4: put the body on
a write, remove the cached body on a delete. -/
def cacheAfterChange (dc : LRUCache String String) (c : ChangeEntry) :
    LRUCache String String :=
  match c.doc with
  | some d => dc.put c.id d
  | none => if c.deleted then dc.remove c.id else dc

/-- Steps 2 to 4 of DriveHandler.tryAppendChanges when saveMeta succeeds:
extend changeLogIds with the new log file id, set meta.seq to the seq of
the last change (undefined on an empty batch; the adapter never submits
one, so 0 stands in), then fold every change into the index and cache. -/
def tryAppendCommit (st : LocalState) (fileId : String)
    (changes : List ChangeEntry) : LocalState :=
  let nextMeta :=
    { st.meta with
      changeLogIds := st.meta.changeLogIds ++ [fileId],
      seq := (changes.getLast?.map (·.seq)).getD 0 }
  { meta := nextMeta,
    index := changes.foldl (fun ix c => updateIndex ix c fileId) st.index,
    docCache := changes.foldl cacheAfterChange st.docCache }

/-! ### atomicUpdateMeta and compact -/

/-- What one iteration of the atomicUpdateMeta retry loop observes: the
meta document it downloads (findFile + downloadJson) and the outcome of
its conditional saveMeta. -/
structure MetaAttempt where
  observed : MetaData
  saveOutcome : TryOutcome

/-- Result of atomicUpdateMeta.  `fellThrough` is the distinguished
non-exceptional return after MAX_RETRIES failed attempts: the while loop
ends and the function returns undefined without having committed and
without throwing. -/
inductive AumResult
  | committed (newMeta : MetaData)
  | fellThrough
  | threw (status : Option Nat)
deriving DecidableEq, Repr

/-- The while loop of DriveHandler.atomicUpdateMeta, with the remaining
attempt budget made explicit as fuel: download the live meta, apply the
modifier, conditionally save; a 412/409 failure retries (after a
randomized backoff, not modeled), any other error is rethrown, success
records the new meta and returns.  When the budget runs out the loop
condition fails and the function returns normally, committing nothing. -/
def atomicUpdateMeta (modifier : MetaData → MetaData) (script : Nat → MetaAttempt) :
    Nat → Nat → AumResult
  | 0, _ => .fellThrough
  | fuel + 1, attempt =>
    let a := script attempt
    match a.saveOutcome with
    | .ok => .committed (modifier a.observed)
    | .errNoStatus => .threw none
    | .errStatus s =>
      if retryableStatus s then atomicUpdateMeta modifier script fuel (attempt + 1)
      else .threw (some s)

/-- The modifier compact() passes to atomicUpdateMeta in step 4: on the
freshly read meta, drop exactly the captured old log ids from
changeLogIds, install the new snapshot index id and the compaction
timestamp, and keep every other field. -/
def compactModifier (oldLogIds : List String) (newIndexId : String) (now : Nat)
    (latest : MetaData) : MetaData :=
  { latest with
    snapshotIndexId := some newIndexId,
    changeLogIds := latest.changeLogIds.filter (fun id => ¬ oldLogIds.contains id),
    lastCompaction := some now }

/-- Observable outcome of the tail of compact(): the result of the
metadata swap and the ids whose deletion cleanupOldFiles attempts
(deletion failures are swallowed, so the attempts are the observable). -/
structure CompactOutcome where
  swap : AumResult
  deletions : List String
deriving DecidableEq, Repr

/-- Steps 4 and 5 of DriveHandler.compact, after the new snapshot data and
index objects exist: capture oldLogIds and oldIndexId from the local meta
(done in step 1 of the source, before any remote call of the compaction),
run the atomicUpdateMeta swap, and then — unless the swap threw — run
cleanupOldFiles on the captured ids.  Note that the fellThrough outcome of
the swap also reaches cleanup. -/
def compactRun (meta : MetaData) (newIndexId : String) (now : Nat)
    (script : Nat → MetaAttempt) : CompactOutcome :=
  let oldLogIds := meta.changeLogIds
  let oldIndexId := meta.snapshotIndexId
  let r := atomicUpdateMeta (compactModifier oldLogIds newIndexId now) script MAX_RETRIES 0
  match r with
  | .threw s => { swap := .threw s, deletions := [] }
  | _ => { swap := r, deletions := oldIndexId.toList ++ oldLogIds }

/-! ### Change notifier (onChange / notifyListeners)

Listeners are JavaScript function references; only their identity matters
here, so they are modeled as naturals. -/

/-- The record notifyListeners builds per indexed id. -/
structure NotifyRec where
  rev : String
  deleted : Bool
deriving DecidableEq, Repr

/-- The changes map notifyListeners passes to every listener: one record
per id currently in the index. -/
def changesMap (index : Index) : List (String × NotifyRec) :=
  index.map (fun p => (p.1, { rev := p.2.rev, deleted := p.2.deleted }))

/-- Method DriveHandler.onChange: push the callback onto the listeners array. -/
def onChange (listeners : List Nat) (cb : Nat) : List Nat :=
  listeners ++ [cb]

/-- The unsubscribe closure returned by onChange: filter out every
occurrence of the callback. -/
def removeListener (listeners : List Nat) (cb : Nat) : List Nat :=
  listeners.filter (fun l => ¬ l = cb)

/-- Method DriveHandler.notifyListeners as its list of invocations: each listener
in array order is called with the changes map of the whole index. -/
def notifyInvocations (listeners : List Nat) (index : Index) :
    List (Nat × List (String × NotifyRec)) :=
  listeners.map (fun l => (l, changesMap index))

end DriveHandler

namespace DriveHandler

/-! ### Read path (get / fetchFile)

The remote store is a read-only map from file id to already-parsed
content (the string-level parsing of fetchFile is modeled separately in
the serialization section); the file cache and document cache are part of
the handler state.  Every call reports the list of remote downloads it
performed, so the no-network claims are statable. -/

/-- Parsed content of a fetched file, mirroring the dynamic shapes the
source dispatches on: a multi-line NDJSON change log (array), a
snapshot-data chunk (object with docs), a single change entry (single-line
NDJSON log), or a bare document body with its id field. -/
inductive FileContent
  | entries (es : List ChangeEntry)
  | chunk (docs : List (String × String))
  | entry (e : ChangeEntry)
  | rawDoc (docId : Option String) (body : String)
deriving DecidableEq, Repr

/-- Handler state for the read path. -/
structure ReadState where
  meta : MetaData
  index : Index
  docCache : LRUCache String String
  fileCache : LRUCache String FileContent
  store : String → Option FileContent

/-- Method DriveHandler.fetchFile: serve from the file cache (refreshing
recency), else download (recording the request), parse and cache.  A
missing remote file models the 404 thrown by client.getFile. -/
def fetchFile (st : ReadState) (fileId : String) :
    Except Unit FileContent × ReadState × List String :=
  match st.fileCache.get fileId with
  | (some cached, fc) => (.ok cached, { st with fileCache := fc }, [])
  | (none, _) =>
    match st.store fileId with
    | none => (.error (), st, [fileId])
    | some data =>
      (.ok data, { st with fileCache := st.fileCache.put fileId data }, [fileId])

/-- The post-fetch dispatch of DriveHandler.get: change-log array (take
the last entry for the id), snapshot chunk (index by id), single change
entry, or a bare document.  A single deletion entry whose id matches
would, in the source, fall through to the bare-document branch and yield
the entry object itself; that shape is untypable here and, because such an
id is necessarily marked deleted in the index, unreachable from get. -/
def docFromContent (id : String) : FileContent → Option String
  | .entries es =>
    match es.reverse.find? (fun c => c.id = id) with
    | some c => c.doc
    | none => none
  | .chunk docs => mapFind docs id
  | .entry e => if e.id = id then e.doc else none
  | .rawDoc docId body => if docId = some id then some body else none

/-- Method DriveHandler.get: null without any lookup or fetch when the id is
unindexed or its entry is a deletion marker; then the document cache; then
a remote fetch through the file cache (the legacy in-memory marker
re-reads the legacy snapshot).  The source stamps entry.rev onto the
returned body object; bodies are opaque here, so the stamp is not
tracked. -/
def get (st : ReadState) (id : String) :
    Except Unit (Option String) × ReadState × List String :=
  match mapFind st.index id with
  | none => (.ok none, st, [])
  | some entry =>
    if entry.deleted then (.ok none, st, [])
    else
      match st.docCache.get id with
      | (some cached, dc) => (.ok (some cached), { st with docCache := dc }, [])
      | (none, _) =>
        if entry.location.fileId = "LEGACY_MEMORY" then
          match st.meta.legacySnapshotId with
          | some sid =>
            match fetchFile st sid with
            | (.error _, st1, eff) => (.error (), st1, eff)
            | (.ok content, st1, eff) =>
              match docFromContent id content with
              | some body =>
                (.ok (some body), { st1 with docCache := st1.docCache.put id body }, eff)
              | none => (.ok none, st1, eff)
          | none => (.ok none, st, [])
        else
          match fetchFile st entry.location.fileId with
          | (.error _, st1, eff) => (.error (), st1, eff)
          | (.ok content, st1, eff) =>
            match docFromContent id content with
            | some body =>
              (.ok (some body), { st1 with docCache := st1.docCache.put id body }, eff)
            | none => (.ok none, st1, eff)

end DriveHandler

namespace DriveHandler

/-! ### Change-log serialization (writeChangeFile / fetchFile parsing)

writeChangeFile serializes a batch as one JSON.stringify record per entry
joined by newlines plus one trailing newline; fetchFile trims the content,
and if it looks like JSON (leading opening brace) either splits multi-line
content into records or parses the single line as one object.  Content is
modeled at the character level; JSON.stringify / JSON.parse are modeled by
a concrete encoder and its concrete inverse for the ChangeEntry record
shape (fields in construction order: seq, id, rev, deleted, doc,
timestamp), faithful for strings free of escapes. -/

/-- Character-level file content. -/
abbrev Chars := List Char

/-- Unpack a string literal. -/
def str (s : String) : Chars := s.toList

/-- Decimal digits of a Nat (fuel-based so that it reduces). -/
def natCharsAux : Nat → Nat → Chars
  | 0, _ => []
  | fuel + 1, n =>
    if n < 10 then [Nat.digitChar n]
    else natCharsAux fuel (n / 10) ++ [Nat.digitChar (n % 10)]

/-- Decimal rendering of a Nat, as JSON.stringify renders it. -/
def natChars (n : Nat) : Chars := natCharsAux (n + 1) n

/-- Numeric value of a run of decimal digits, as parseInt reads it. -/
def charsToNat (ds : Chars) : Nat :=
  ds.foldl (fun n c => n * 10 + (c.toNat - 48)) 0

/-- JSON string literal of an escape-free string. -/
def jStrEnc (s : String) : Chars := '"' :: str s ++ ['"']

/-- Model of JSON.stringify on a ChangeEntry: object fields in construction order,
with the optional deleted and doc fields omitted when absent. -/
def encodeEntry (e : ChangeEntry) : Chars :=
  str "\x7b\"seq\":" ++ natChars e.seq
    ++ str ",\"id\":" ++ jStrEnc e.id
    ++ str ",\"rev\":" ++ jStrEnc e.rev
    ++ (if e.deleted then str ",\"deleted\":true" else [])
    ++ (match e.doc with
        | some d => str ",\"doc\":" ++ jStrEnc d
        | none => [])
    ++ str ",\"timestamp\":" ++ natChars e.timestamp
    ++ ['\x7d']

/-- Consume an exact expected text, or fail. -/
def stripExact : Chars → Chars → Option Chars
  | [], s => some s
  | _ :: _, [] => none
  | p :: pre, c :: s => if c = p then stripExact pre s else none

/-- Consume a nonempty run of decimal digits as a number. -/
def readNat (s : Chars) : Option (Nat × Chars) :=
  let ds := s.takeWhile Char.isDigit
  if ds = [] then none else some (charsToNat ds, s.drop ds.length)

/-- Consume a JSON string literal (escape-free form). -/
def readJStr : Chars → Option (String × Chars)
  | '"' :: rest =>
    let body := rest.takeWhile (fun c => ¬ c = '"')
    match rest.drop body.length with
    | '"' :: rest2 => some (String.mk body, rest2)
    | _ => none
  | _ => none

/-- Parse the closing fields (timestamp and closing brace); JSON.parse
consumes the whole line, so trailing content fails. -/
def decodeFinish (seq : Nat) (id rev : String) (deleted : Bool) (doc : Option String)
    (s : Chars) : Option ChangeEntry :=
  match stripExact (str ",\"timestamp\":") s with
  | none => none
  | some t1 =>
    match readNat t1 with
    | none => none
    | some (ts, t2) =>
      if t2 = ['\x7d'] then
        some { seq := seq, id := id, rev := rev, deleted := deleted, doc := doc,
               timestamp := ts }
      else none

/-- Parse the optional doc field. -/
def decodeDoc (seq : Nat) (id rev : String) (deleted : Bool) (s : Chars) :
    Option ChangeEntry :=
  match stripExact (str ",\"doc\":") s with
  | none => decodeFinish seq id rev deleted none s
  | some d1 =>
    match readJStr d1 with
    | none => none
    | some (d, d2) => decodeFinish seq id rev deleted (some d) d2

/-- Parse the optional deleted field. -/
def decodeTail (seq : Nat) (id rev : String) (s : Chars) : Option ChangeEntry :=
  match stripExact (str ",\"deleted\":true") s with
  | none => decodeDoc seq id rev false s
  | some s1 => decodeDoc seq id rev true s1

/-- Model of JSON.parse on one serialized ChangeEntry line (inverse of
encodeEntry on its image). -/
def decodeEntry (s : Chars) : Option ChangeEntry :=
  match stripExact (str "\x7b\"seq\":") s with
  | none => none
  | some s1 =>
    match readNat s1 with
    | none => none
    | some (seq, s2) =>
      match stripExact (str ",\"id\":") s2 with
      | none => none
      | some s3 =>
        match readJStr s3 with
        | none => none
        | some (id, s4) =>
          match stripExact (str ",\"rev\":") s4 with
          | none => none
          | some s5 =>
            match readJStr s5 with
            | none => none
            | some (rev, s6) => decodeTail seq id rev s6

/-- Model of lines.map parsing inside the try of fetchFile: one
failing line makes the whole parse fall back to the raw string. -/
def decodeLines : List Chars → Option (List ChangeEntry)
  | [] => some []
  | l :: ls =>
    match decodeEntry l, decodeLines ls with
    | some e, some es => some (e :: es)
    | _, _ => none

/-- Leading-whitespace strip of String.prototype.trim. -/
def dropLeadWs (s : Chars) : Chars := s.dropWhile Char.isWhitespace

/-- Trailing-whitespace strip of String.prototype.trim. -/
def dropTrailWs (s : Chars) : Chars :=
  (s.reverse.dropWhile Char.isWhitespace).reverse

/-- String.prototype.trim. -/
def jsTrim (s : Chars) : Chars := dropTrailWs (dropLeadWs s)

/-- What fetchFile produces from a downloaded string: a parsed array of
records, a parsed single object, or the raw string. -/
inductive ParsedFile
  | arr (es : List ChangeEntry)
  | obj (e : ChangeEntry)
  | raw (data : Chars)
deriving DecidableEq, Repr

/-- The string-parsing logic of DriveHandler.fetchFile: trim; content that
starts with an opening brace and contains a newline is split into
nonempty lines and parsed line-wise (any parse failure falls back to the
raw data); single-line content is parsed as one JSON value; anything else
stays raw. -/
def fetchFileParse (data : Chars) : ParsedFile :=
  let trimmed := jsTrim data
  if trimmed.take 1 = ['\x7b'] then
    if trimmed.contains '\n' then
      match decodeLines ((trimmed.splitOn '\n').filter (fun l => l ≠ [])) with
      | some es => .arr es
      | none => .raw data
    else
      match decodeEntry trimmed with
      | some e => .obj e
      | none => .raw data
  else .raw data

/-- Content written by DriveHandler.writeChangeFile: one serialized record per entry,
joined with newlines, plus a trailing newline.  (The object name embeds
the starting sequence number and a random disambiguator; naming is not
needed by the round-trip claim.) -/
def writeChangeContent (changes : List ChangeEntry) : Chars :=
  List.intercalate ['\n'] (changes.map encodeEntry) ++ ['\n']

/-- A string the concrete encoder handles exactly like JSON.stringify:
free of newlines, quotes and backslashes. -/
def plainStr (s : String) : Bool :=
  s.toList.all (fun c => ¬ (c = '\n' ∨ c = '"' ∨ c = '\\'))

/-- An entry whose string fields are all plain. -/
def plainEntry (e : ChangeEntry) : Bool :=
  plainStr e.id && plainStr e.rev &&
    (match e.doc with
     | some d => plainStr d
     | none => true)

end DriveHandler

namespace DriveHandler

/-! ### Derived notions used by the statements -/

/-- Attempt j fails with a retryable status and the reloaded index passes
re-validation for the batch (checkConflicts does not look at sequence
numbers, so restamping does not affect this). -/
def cleanConflict (script : Nat → AppendAttempt) (changes : List ChangeEntry)
    (j : Nat) : Prop :=
  (∃ s, (script j).outcome = .errStatus s ∧ retryableStatus s = true)
  ∧ checkConflicts (script j).reloadIndex changes = none

/-- The batch as it stands after k clean retryable failures starting from
attempt `attempt`: restamping overwrites, so only the last reload
matters. -/
def restampedAfter (script : Nat → AppendAttempt) (changes : List ChangeEntry)
    (attempt : Nat) : Nat → List ChangeEntry
  | 0 => changes
  | k + 1 => stampSeqs ((script (attempt + k)).reloadMeta.seq) changes

end DriveHandler

/-! ## Concrete sample data for counterexamples and witnesses -/

namespace Samples

open DriveHandler

/-- A local metadata state about to be compacted: two uncompacted logs and
a current snapshot index. -/
def c1Meta : MetaData :=
  { seq := 3, changeLogIds := ["logA", "logB"], snapshotIndexId := some "idx0",
    lastCompaction := none, dbName := "db" }

/-- A swap script in which every conditional metadata update fails with
Conflict: the remote metadata never changes from c1Meta. -/
def c1Script : Nat → MetaAttempt :=
  fun _ => { observed := c1Meta, saveOutcome := .errStatus 409 }

/-- A metadata state as re-read during a compaction swap, holding one log
appended by a concurrent writer next to the two being compacted. -/
def c2Latest : MetaData :=
  { seq := 9, changeLogIds := ["logA", "logConcurrent", "logB"],
    snapshotIndexId := some "idx0", lastCompaction := some 5, dbName := "db" }

/-- Index entry at generation 2 for the C3 counterexample, document docA. -/
def c3IndexA : Index :=
  [("docA", { rev := "2-aaa", seq := 7, deleted := false, location := { fileId := "f1" } })]

/-- A pending write for docA that assumes generation 2 as well: stale. -/
def c3PendingA : ChangeEntry :=
  { seq := 8, id := "docA", rev := "2-bbb", timestamp := 1 }

/-- Index entry at generation 5 for a different document docB. -/
def c3IndexB : Index :=
  [("docB", { rev := "5-ccc", seq := 7, deleted := false, location := { fileId := "f2" } })]

/-- A stale pending write for docB. -/
def c3PendingB : ChangeEntry :=
  { seq := 8, id := "docB", rev := "4-ddd", timestamp := 1 }

/-- A reload state used by append retry scripts. -/
def reload0 : MetaData :=
  { seq := 20, changeLogIds := ["logX"], snapshotIndexId := none,
    lastCompaction := none, dbName := "db" }

/-- A script in which every tryAppendChanges attempt fails with a 412
precondition conflict and every reload shows an empty index. -/
def scriptAllConflicts : Nat → AppendAttempt :=
  fun _ => { outcome := .errStatus 412, reloadMeta := reload0, reloadIndex := [] }

/-- A script whose first attempt fails retryably and whose second attempt
fails with a plain 404: the 404 must propagate. -/
def scriptThenNotFound : Nat → AppendAttempt :=
  fun j =>
    if j = 0 then { outcome := .errStatus 409, reloadMeta := reload0, reloadIndex := [] }
    else { outcome := .errStatus 404, reloadMeta := reload0, reloadIndex := [] }

/-- A script whose first attempt fails retryably and whose second
succeeds. -/
def scriptThenOk : Nat → AppendAttempt :=
  fun j =>
    if j = 0 then { outcome := .errStatus 412, reloadMeta := reload0, reloadIndex := [] }
    else { outcome := .ok, reloadMeta := reload0, reloadIndex := [] }

/-- A script whose first attempt fails retryably and whose reload exposes
the stale index c3IndexA: re-validation must throw. -/
def scriptStaleReload : Nat → AppendAttempt :=
  fun _ => { outcome := .errStatus 409, reloadMeta := reload0, reloadIndex := c3IndexA }

/-- A fresh (non-stale) batch used by the append witnesses. -/
def freshBatch : List ChangeEntry :=
  [{ seq := 0, id := "docNew", rev := "1-eee", timestamp := 2 },
   { seq := 0, id := "docNew2", rev := "1-fff", timestamp := 2 }]

/-- Local state before an append, at sequence 10. -/
def c6State : LocalState :=
  { meta := { seq := 10, changeLogIds := ["logOld"], snapshotIndexId := none,
              lastCompaction := none, dbName := "db" },
    index := [], docCache := LRUCache.empty String String 3 }

/-- Two-log replay in which the second log carries the lower sequence for
document a: replay order disagrees with sequence order. -/
def c7Logs : List (String × List ChangeEntry) :=
  [("f1", [{ seq := 2, id := "a", rev := "2-x", timestamp := 0 }]),
   ("f2", [{ seq := 1, id := "a", rev := "1-y", timestamp := 0 }])]

/-- The same two entries in sequence order, as the append protocol would
have committed them. -/
def c7SortedLogs : List (String × List ChangeEntry) :=
  [("f2", [{ seq := 1, id := "a", rev := "1-y", timestamp := 0 }]),
   ("f1", [{ seq := 2, id := "a", rev := "2-x", timestamp := 0 }])]

/-- A read state whose index holds one live document and one deletion
marker; the remote store is empty (any fetch would fail, so a passing
claim shows none is attempted). -/
def c8State : ReadState :=
  { meta := { seq := 4, changeLogIds := [], snapshotIndexId := none,
              lastCompaction := none, dbName := "db" },
    index := [("alive", { rev := "1-aaa", seq := 1, deleted := false,
                          location := { fileId := "f1" } }),
              ("tomb", { rev := "2-bbb", seq := 2, deleted := true,
                         location := { fileId := "f1" } })],
    docCache := LRUCache.empty String String 3,
    fileCache := LRUCache.empty String FileContent 3,
    store := fun _ => none }

/-- An index for the notifier samples. -/
def c9Index : Index :=
  [("d1", { rev := "1-aaa", seq := 1, deleted := false, location := { fileId := "f1" } }),
   ("d2", { rev := "2-bbb", seq := 2, deleted := true, location := { fileId := "f2" } })]

/-- A plain entry for the serialization counterexample. -/
def cex5 : ChangeEntry :=
  { seq := 1, id := "a", rev := "1-x", deleted := false, doc := some "body", timestamp := 5 }

/-- A second plain entry, a deletion, for the serialization witness. -/
def cex5b : ChangeEntry :=
  { seq := 2, id := "c", rev := "2-y", deleted := true, doc := none, timestamp := 7 }

/-- A concrete operation sequence for the cache witness: fills a cache of
capacity 2, refreshes key 1, inserts key 3. -/
def c10Ops : List (LruOp Nat Nat) :=
  [.put 1 10, .put 2 20, .get 1, .put 3 30, .remove 9, .get 7]

end Samples

/-! ## Helper lemmas on the insertion-ordered map primitives -/

theorem mapFind_nil {K V : Type} [DecidableEq K] (k : K) :
    mapFind ([] : List (K × V)) k = none := rfl

theorem mapFind_cons {K V : Type} [DecidableEq K] (p : K × V) (t : List (K × V)) (k : K) :
    mapFind (p :: t) k = if p.1 = k then some p.2 else mapFind t k := by
  by_cases h : p.1 = k <;> simp [mapFind, List.find?_cons, h]

theorem mapFind_append {K V : Type} [DecidableEq K] (m m' : List (K × V)) (k : K) :
    mapFind (m ++ m') k = (mapFind m k).orElse (fun _ => mapFind m' k) := by
  induction m with
  | nil => simp [mapFind_nil]
  | cons p t ih =>
    by_cases h : p.1 = k <;> simp [mapFind_cons, h, ih]

theorem mapFind_eq_none {K V : Type} [DecidableEq K] (m : List (K × V)) (k : K) :
    mapFind m k = none ↔ ∀ p ∈ m, p.1 ≠ k := by
  simp [mapFind, List.find?_eq_none]

theorem mapFind_mem {K V : Type} [DecidableEq K] {m : List (K × V)} {k : K} {v : V}
    (h : mapFind m k = some v) : (k, v) ∈ m := by
  induction m with
  | nil => simp [mapFind_nil] at h
  | cons p t ih =>
    rw [mapFind_cons] at h
    split at h
    · rename_i hk
      obtain ⟨a, b⟩ := p
      obtain rfl : a = k := hk
      obtain rfl : b = v := by simpa using h
      exact List.mem_cons_self _ _
    · exact List.mem_cons_of_mem _ (ih h)

theorem any_key_iff {K V : Type} [DecidableEq K] (m : List (K × V)) (k : K) :
    (m.any fun p => p.1 = k) = true ↔ ∃ p ∈ m, p.1 = k := by
  simp [List.any_eq_true]

theorem mapFind_isSome_of_any {K V : Type} [DecidableEq K] {m : List (K × V)} {k : K}
    (h : (m.any fun p => p.1 = k) = true) : ∃ v, mapFind m k = some v := by
  induction m with
  | nil => simp at h
  | cons p t ih =>
    by_cases hp : p.1 = k
    · exact ⟨p.2, by simp [mapFind_cons, hp]⟩
    · simp only [List.any_cons, Bool.or_eq_true, decide_eq_true_eq] at h
      rcases h with h | h
      · exact absurd h hp
      · obtain ⟨v, hv⟩ := ih h
        exact ⟨v, by simp [mapFind_cons, hp, hv]⟩

theorem mem_mapSet {K V : Type} [DecidableEq K] {m : List (K × V)} {k : K} {v : V}
    {p : K × V} (h : p ∈ mapSet m k v) : p = (k, v) ∨ p ∈ m := by
  unfold mapSet at h
  split at h
  · rcases List.mem_map.mp h with ⟨q, hq, hqe⟩
    by_cases hk : q.1 = k
    · simp only [if_pos hk] at hqe
      exact Or.inl hqe.symm
    · simp only [if_neg hk] at hqe
      exact Or.inr (hqe ▸ hq)
  · rcases List.mem_append.mp h with h1 | h1
    · exact Or.inr h1
    · simp only [List.mem_singleton] at h1
      exact Or.inl h1

theorem mapFind_mapSet_self {K V : Type} [DecidableEq K] (m : List (K × V)) (k : K) (v : V) :
    mapFind (mapSet m k v) k = some v := by
  unfold mapSet
  split
  · rename_i hany
    induction m with
    | nil => simp at hany
    | cons p t ih =>
      by_cases hp : p.1 = k
      · simp [if_pos hp, mapFind_cons]
      · simp only [List.any_cons, Bool.or_eq_true, decide_eq_true_eq] at hany
        rcases hany with h | h
        · exact absurd h hp
        · simp only [List.map_cons, if_neg hp, mapFind_cons, hp, if_false]
          exact ih h
  · rw [mapFind_append]
    rename_i hany
    have hnone : mapFind m k = none := by
      rw [mapFind_eq_none]
      intro p hp hpk
      exact hany (List.any_eq_true.mpr ⟨p, hp, by simpa using hpk⟩)
    simp [hnone, mapFind_cons]

theorem mapFind_overwrite_ne {K V : Type} [DecidableEq K] (m : List (K × V)) (k k' : K)
    (v : V) (h : k' ≠ k) :
    mapFind (m.map fun p => if p.1 = k then (k, v) else p) k' = mapFind m k' := by
  induction m with
  | nil => simp
  | cons p t ih =>
    by_cases hp : p.1 = k
    · have hp' : p.1 ≠ k' := by rw [hp]; exact fun he => h he.symm
      simp only [List.map_cons, if_pos hp, mapFind_cons]
      rw [if_neg (by simpa using Ne.symm h), if_neg (by simpa using hp')]
      exact ih
    · simp only [List.map_cons, if_neg hp, mapFind_cons]
      by_cases hp2 : p.1 = k'
      · simp [hp2]
      · rw [if_neg hp2, if_neg hp2]
        exact ih

theorem mapFind_mapSet_ne {K V : Type} [DecidableEq K] (m : List (K × V)) (k k' : K)
    (v : V) (h : k' ≠ k) : mapFind (mapSet m k v) k' = mapFind m k' := by
  unfold mapSet
  split
  · exact mapFind_overwrite_ne m k k' v h
  · rw [mapFind_append]
    cases hf : mapFind m k' with
    | some v' => simp [hf]
    | none => simp [hf, mapFind_cons, mapFind_nil, Ne.symm h]

/-! ## Claim C2: frame of the compaction root-pointer swap -/

/-- Claim C2: in the swap modifier, the new changeLogIds are exactly the
freshly re-read changeLogIds minus the log ids captured at the start of
compact() — every concurrently appended log id survives, order preserved —
and every metadata field other than snapshotIndexId, changeLogIds and
lastCompaction is unchanged. -/
theorem C2_compact_swap_frame (oldLogIds : List String) (newIndexId : String)
    (now : Nat) (latest : MetaData) :
    (∀ id, id ∈ (DriveHandler.compactModifier oldLogIds newIndexId now latest).changeLogIds
      ↔ (id ∈ latest.changeLogIds ∧ id ∉ oldLogIds))
    ∧ List.Sublist
        (DriveHandler.compactModifier oldLogIds newIndexId now latest).changeLogIds
        latest.changeLogIds
    ∧ (DriveHandler.compactModifier oldLogIds newIndexId now latest).snapshotIndexId
        = some newIndexId
    ∧ (DriveHandler.compactModifier oldLogIds newIndexId now latest).lastCompaction
        = some now
    ∧ (DriveHandler.compactModifier oldLogIds newIndexId now latest).seq = latest.seq
    ∧ (DriveHandler.compactModifier oldLogIds newIndexId now latest).dbName = latest.dbName
    ∧ (DriveHandler.compactModifier oldLogIds newIndexId now latest).legacySnapshotId
        = latest.legacySnapshotId := by
  refine ⟨?_, ?_, rfl, rfl, rfl, rfl, rfl⟩
  · intro id
    simp [DriveHandler.compactModifier, List.mem_filter]
  · exact List.filter_sublist (l := latest.changeLogIds)

/-! ## Claim C8: get on absent or deleted ids -/

/-- Claim C8: for an id with no index entry, and for an id whose entry is
a deletion marker, get returns null, issues no remote download, and leaves
both caches untouched. -/
theorem C8_get_no_fetch (st : DriveHandler.ReadState) (id : String) :
    (mapFind st.index id = none → DriveHandler.get st id = (.ok none, st, []))
    ∧ (∀ e, mapFind st.index id = some e → e.deleted = true →
        DriveHandler.get st id = (.ok none, st, [])) := by
  constructor
  · intro h
    unfold DriveHandler.get
    rw [h]
  · intro e he hd
    unfold DriveHandler.get
    rw [he]
    simp [hd]

/-- Witness for C8 at a concrete read state with an empty remote store. -/
theorem C8_get_no_fetch_witness :
    DriveHandler.get Samples.c8State "missing" = (.ok none, Samples.c8State, [])
    ∧ DriveHandler.get Samples.c8State "tomb" = (.ok none, Samples.c8State, []) :=
  ⟨(C8_get_no_fetch Samples.c8State "missing").1 (by decide),
   (C8_get_no_fetch Samples.c8State "tomb").2
     { rev := "2-bbb", seq := 2, deleted := true, location := { fileId := "f1" } }
     (by decide) rfl⟩

/-! ## Claim C9: listener registration and notification -/

/-- Counterexample to claim C9: onChange pushes unconditionally, so
registering the same listener twice does not leave the notifier in the
single-registration state, and one notification then invokes that
listener twice, not once. -/
theorem C9_counterexample :
    DriveHandler.onChange (DriveHandler.onChange [] 7) 7 ≠ DriveHandler.onChange [] 7
    ∧ (DriveHandler.notifyInvocations (DriveHandler.onChange (DriveHandler.onChange [] 7) 7)
        Samples.c9Index).count (7, DriveHandler.changesMap Samples.c9Index) = 2 := by
  exact ⟨by decide, by decide⟩

/-- The count of one listener among the notification invocations equals
its count in the listener array. -/
theorem count_notifyInvocations (listeners : List Nat) (index : DriveHandler.Index)
    (l0 : Nat) :
    (DriveHandler.notifyInvocations listeners index).count
      (l0, DriveHandler.changesMap index) = listeners.count l0 := by
  induction listeners with
  | nil => rfl
  | cons l t ih =>
    simp only [DriveHandler.notifyInvocations, List.map_cons] at ih ⊢
    by_cases h : l = l0
    · simp [List.count_cons, h, ih]
    · simp [List.count_cons, h, ih]

/-- Claim C9 amended: removal through the returned unsubscribe closure is
idempotent; registration appends unconditionally, so a notification after
registering cb invokes cb one additional time; distinct registered
listeners are each invoked exactly once, each with the id, revision and
deleted flag of every id in the index. -/
theorem C9_amended (listeners : List Nat) (index : DriveHandler.Index) (cb : Nat) :
    DriveHandler.removeListener (DriveHandler.removeListener listeners cb) cb
      = DriveHandler.removeListener listeners cb
    ∧ (listeners.Nodup → ∀ l ∈ listeners,
        (DriveHandler.notifyInvocations listeners index).count
          (l, DriveHandler.changesMap index) = 1)
    ∧ DriveHandler.notifyInvocations (DriveHandler.onChange listeners cb) index
        = DriveHandler.notifyInvocations listeners index
          ++ [(cb, DriveHandler.changesMap index)]
    ∧ DriveHandler.changesMap index
        = index.map (fun p => (p.1, { rev := p.2.rev, deleted := p.2.deleted })) := by
  refine ⟨?_, ?_, ?_, rfl⟩
  · simp [DriveHandler.removeListener, List.filter_filter]
  · intro hnd l hl
    rw [count_notifyInvocations]
    exact List.count_eq_one_of_mem hnd hl
  · simp [DriveHandler.notifyInvocations, DriveHandler.onChange]

/-- Witness for C9 amended at a concrete listener array and index. -/
theorem C9_amended_witness :
    (DriveHandler.notifyInvocations [3, 7] Samples.c9Index).count
      (7, DriveHandler.changesMap Samples.c9Index) = 1 :=
  ((C9_amended [3, 7] Samples.c9Index 7).2.1 (by decide) 7 (by decide))

/-! ## Claim C1: compaction cleanup after a failed root-pointer swap -/

/-- Claim C1 (code bug): when every conditional metadata update of the
swap fails with Conflict, atomicUpdateMeta exhausts its retries and
returns normally without committing, and compact() nevertheless proceeds
to delete the old snapshot index object and the old log objects — objects
the (unchanged) metadata still references. -/
theorem C1_cleanup_despite_failed_swap :
    DriveHandler.compactRun Samples.c1Meta "idxNew" 42 Samples.c1Script
      = { swap := .fellThrough, deletions := ["idx0", "logA", "logB"] }
    ∧ Samples.c1Meta.changeLogIds = ["logA", "logB"]
    ∧ Samples.c1Meta.snapshotIndexId = some "idx0"
    ∧ (DriveHandler.compactRun Samples.c1Meta "idxNew" 42 Samples.c1Script).deletions ≠ [] := by
  exact ⟨by decide, rfl, rfl, by decide⟩

/-! ## Claim C10: LRU cache invariants -/

theorem keys_mapSet_of_any {K V : Type} [DecidableEq K] {m : List (K × V)} {k : K}
    (v : V) (h : (m.any fun p => p.1 = k) = true) :
    (mapSet m k v).map Prod.fst = m.map Prod.fst := by
  unfold mapSet
  rw [if_pos h, List.map_map]
  refine List.map_congr_left ?_
  intro p _
  by_cases hp : p.1 = k
  · simp [hp]
  · simp [hp]

theorem mapSet_of_not_any {K V : Type} [DecidableEq K] {m : List (K × V)} {k : K}
    (v : V) (h : (m.any fun p => p.1 = k) = false) :
    mapSet m k v = m ++ [(k, v)] := by
  unfold mapSet
  rw [if_neg (by simp [h])]

theorem length_mapSet_of_any {K V : Type} [DecidableEq K] {m : List (K × V)} {k : K}
    (v : V) (h : (m.any fun p => p.1 = k) = true) :
    (mapSet m k v).length = m.length := by
  have := congrArg List.length (keys_mapSet_of_any v h)
  simpa using this

theorem nodupKeys_mapSet {K V : Type} [DecidableEq K] {m : List (K × V)} (k : K) (v : V)
    (h : (m.map Prod.fst).Nodup) : ((mapSet m k v).map Prod.fst).Nodup := by
  cases hany : (m.any fun p => p.1 = k) with
  | true => rw [keys_mapSet_of_any v hany]; exact h
  | false =>
    rw [mapSet_of_not_any v hany, List.map_append]
    have hk : k ∉ m.map Prod.fst := by
      intro hmem
      rcases List.mem_map.mp hmem with ⟨p, hp, hpk⟩
      have : (m.any fun p => p.1 = k) = true :=
        List.any_eq_true.mpr ⟨p, hp, by simpa using hpk⟩
      simp [this] at hany
    simp [List.nodup_append, h, hk]

theorem length_mapDelete_of_any {K V : Type} [DecidableEq K] {m : List (K × V)} {k : K}
    (h : (m.any fun p => p.1 = k) = true) :
    (mapDelete m k).length + 1 = m.length := by
  rcases List.any_eq_true.mp h with ⟨p, hp, hpk⟩
  exact List.length_eraseP_add_one hp hpk

theorem length_mapDelete_le {K V : Type} [DecidableEq K] (m : List (K × V)) (k : K) :
    (mapDelete m k).length ≤ m.length :=
  (List.eraseP_sublist m).length_le

theorem nodupKeys_mapDelete {K V : Type} [DecidableEq K] {m : List (K × V)} (k : K)
    (h : (m.map Prod.fst).Nodup) : ((mapDelete m k).map Prod.fst).Nodup :=
  ((List.eraseP_sublist m).map Prod.fst).nodup h

theorem not_any_mapDelete {K V : Type} [DecidableEq K] {m : List (K × V)} {k : K}
    (h : (m.map Prod.fst).Nodup) :
    ((mapDelete m k).any fun p => p.1 = k) = false := by
  induction m with
  | nil => rfl
  | cons p t ih =>
    simp only [List.map_cons, List.nodup_cons] at h
    by_cases hp : p.1 = k
    · have : mapDelete (p :: t) k = t := by
        simp [mapDelete, List.eraseP_cons, hp]
      rw [this]
      rw [Bool.eq_false_iff]
      intro hany
      rcases List.any_eq_true.mp hany with ⟨q, hq, hqk⟩
      exact h.1 (hp ▸ (by simpa using hqk) ▸ List.mem_map_of_mem Prod.fst hq)
    · have : mapDelete (p :: t) k = p :: mapDelete t k := by
        simp [mapDelete, List.eraseP_cons, hp]
      rw [this]
      simp [hp, ih h.2]

theorem any_of_mapFind_some {K V : Type} [DecidableEq K] {m : List (K × V)} {k : K} {v : V}
    (h : mapFind m k = some v) : (m.any fun p => p.1 = k) = true :=
  List.any_eq_true.mpr ⟨(k, v), mapFind_mem h, by simp⟩

/-- The backing map of put, with the three branches of its let exposed.
The source match on the old map is the list tail. -/
theorem put_map {K V : Type} [DecidableEq K] (c : LRUCache K V) (k : K) (v : V) :
    (c.put k v).map =
      mapSet
        (if (c.map.any fun p => p.1 = k) then mapDelete c.map k
         else if c.capacity ≤ c.map.length then c.map.tail
         else c.map)
        k v := by
  unfold LRUCache.put
  cases c.map <;> rfl

/-- One cache operation preserves the size bound and key uniqueness, for
any positive capacity. -/
theorem lruOp_apply_inv {K V : Type} [DecidableEq K] (c : LRUCache K V) (op : LruOp K V)
    (hcap : 1 ≤ c.capacity) (hlen : c.map.length ≤ c.capacity)
    (hnd : (c.map.map Prod.fst).Nodup) :
    (LruOp.apply c op).capacity = c.capacity
    ∧ (LruOp.apply c op).map.length ≤ c.capacity
    ∧ ((LruOp.apply c op).map.map Prod.fst).Nodup := by
  cases op with
  | put k v =>
    have hc : (c.put k v).capacity = c.capacity := rfl
    refine ⟨hc, ?_, ?_⟩
    · show (c.put k v).map.length ≤ c.capacity
      rw [put_map]
      cases hany : (c.map.any fun p => p.1 = k) with
      | true =>
        rw [if_pos rfl]
        cases hany2 : ((mapDelete c.map k).any fun p => p.1 = k) with
        | true =>
          rw [length_mapSet_of_any v hany2]
          exact le_trans (length_mapDelete_le c.map k) hlen
        | false =>
          rw [mapSet_of_not_any v hany2]
          simp only [List.length_append, List.length_singleton]
          rw [length_mapDelete_of_any hany]
          exact hlen
      | false =>
        rw [if_neg (by simp)]
        by_cases hfull : c.capacity ≤ c.map.length
        · rw [if_pos hfull]
          have hce : c.map.length = c.capacity := le_antisymm hlen hfull
          have hany3 : (c.map.tail.any fun p => p.1 = k) = false := by
            rw [Bool.eq_false_iff]
            intro h3
            rcases List.any_eq_true.mp h3 with ⟨q2, hq2, hq2k⟩
            have : (c.map.any fun p => p.1 = k) = true :=
              List.any_eq_true.mpr ⟨q2, List.mem_of_mem_tail hq2, hq2k⟩
            simp [this] at hany
          rw [mapSet_of_not_any v hany3]
          simp only [List.length_append, List.length_singleton]
          cases hm : c.map with
          | nil => rw [hm] at hce; simp at hce; omega
          | cons q rest =>
            rw [hm] at hce
            simp only [List.tail_cons]
            simp only [List.length_cons] at hce
            omega
        · rw [if_neg hfull]
          rw [mapSet_of_not_any v hany]
          simp only [List.length_append, List.length_singleton]
          omega
    · show ((c.put k v).map.map Prod.fst).Nodup
      rw [put_map]
      cases hany : (c.map.any fun p => p.1 = k) with
      | true =>
        rw [if_pos rfl]
        exact nodupKeys_mapSet k v (nodupKeys_mapDelete k hnd)
      | false =>
        rw [if_neg (by simp)]
        by_cases hfull : c.capacity ≤ c.map.length
        · rw [if_pos hfull]
          refine nodupKeys_mapSet k v ?_
          have := List.Nodup.sublist ((c.map.tail_sublist).map Prod.fst) hnd
          exact this
        · rw [if_neg hfull]
          exact nodupKeys_mapSet k v hnd
  | get k =>
    show (c.get k).2.capacity = c.capacity ∧ (c.get k).2.map.length ≤ c.capacity
      ∧ ((c.get k).2.map.map Prod.fst).Nodup
    unfold LRUCache.get
    cases hf : mapFind c.map k with
    | none => exact ⟨rfl, hlen, hnd⟩
    | some v =>
      refine ⟨rfl, ?_, ?_⟩
      · show (mapSet (mapDelete c.map k) k v).length ≤ c.capacity
        cases hany2 : ((mapDelete c.map k).any fun p => p.1 = k) with
        | true =>
          rw [length_mapSet_of_any v hany2]
          exact le_trans (length_mapDelete_le c.map k) hlen
        | false =>
          rw [mapSet_of_not_any v hany2]
          simp only [List.length_append, List.length_singleton]
          rw [length_mapDelete_of_any (any_of_mapFind_some hf)]
          exact hlen
      · exact nodupKeys_mapSet k v (nodupKeys_mapDelete k hnd)
  | remove k =>
    exact ⟨rfl, le_trans (length_mapDelete_le c.map k) hlen, nodupKeys_mapDelete k hnd⟩

/-- The run of any operation sequence preserves the three-part cache
invariant. -/
theorem lru_run_inv {K V : Type} [DecidableEq K] (ops : List (LruOp K V))
    (c : LRUCache K V) (hcap : 1 ≤ c.capacity) (hlen : c.map.length ≤ c.capacity)
    (hnd : (c.map.map Prod.fst).Nodup) :
    (c.run ops).capacity = c.capacity
    ∧ (c.run ops).map.length ≤ c.capacity
    ∧ ((c.run ops).map.map Prod.fst).Nodup := by
  induction ops generalizing c with
  | nil => exact ⟨rfl, hlen, hnd⟩
  | cons op t ih =>
    obtain ⟨h1, h2, h3⟩ := lruOp_apply_inv c op hcap hlen hnd
    have := ih (LruOp.apply c op) (h1 ▸ hcap) (h1 ▸ h2) h3
    rw [show c.run (op :: t) = (LruOp.apply c op).run t from rfl]
    exact ⟨this.1.trans h1, h1 ▸ this.2.1, this.2.2⟩

/-- Claim C10: for a cache of capacity at least one, (a) the entry count
never exceeds the capacity across any operation sequence from the empty
cache; (b) putting a new key into a full cache evicts exactly the least
recently used entry (the head) and installs the new binding as most
recently used; (c) getting a present key returns its value unchanged and
moves that binding to most recently used, keeping the size. -/
theorem C10_lru_invariants {K V : Type} [DecidableEq K] (cap : Nat) (hcap : 1 ≤ cap) :
    (∀ ops : List (LruOp K V), ((LRUCache.empty K V cap).run ops).map.length ≤ cap)
    ∧ (∀ (c : LRUCache K V) (k : K) (v : V) (p : K × V) (rest : List (K × V)),
        (c.map.any fun q => q.1 = k) = false →
        c.map = p :: rest → c.map.length = c.capacity →
        (c.put k v).map = rest ++ [(k, v)])
    ∧ (∀ (c : LRUCache K V) (k : K) (v : V),
        (c.map.map Prod.fst).Nodup → mapFind c.map k = some v →
        (c.get k).1 = some v
        ∧ (c.get k).2.map = mapDelete c.map k ++ [(k, v)]
        ∧ mapFind (c.get k).2.map k = some v
        ∧ (c.get k).2.map.length = c.map.length) := by
  refine ⟨?_, ?_, ?_⟩
  · intro ops
    have := lru_run_inv ops (LRUCache.empty K V cap) (by simpa [LRUCache.empty] using hcap)
      (by simp [LRUCache.empty]) (by simp [LRUCache.empty])
    simpa [LRUCache.empty] using this.2.1
  · intro c k v p rest hany hm hfull
    rw [put_map, if_neg (by simp [hany]), if_pos (le_of_eq hfull.symm), hm]
    have hany3 : (rest.any fun q => q.1 = k) = false := by
      rw [Bool.eq_false_iff]
      intro h3
      rcases List.any_eq_true.mp h3 with ⟨q2, hq2, hq2k⟩
      have : (c.map.any fun q => q.1 = k) = true :=
        List.any_eq_true.mpr ⟨q2, by rw [hm]; exact List.mem_cons_of_mem _ hq2, hq2k⟩
      simp [this] at hany
    rw [List.tail_cons, mapSet_of_not_any v hany3]
  · intro c k v hnd hf
    have hany2 : ((mapDelete c.map k).any fun q => q.1 = k) = false :=
      not_any_mapDelete hnd
    have hmap : (c.get k).2.map = mapDelete c.map k ++ [(k, v)] := by
      show (match mapFind c.map k with
            | some v => (some v, { c with map := mapSet (mapDelete c.map k) k v })
            | none => (none, c) : Option V × LRUCache K V).2.map
          = mapDelete c.map k ++ [(k, v)]
      rw [hf]
      show mapSet (mapDelete c.map k) k v = mapDelete c.map k ++ [(k, v)]
      exact mapSet_of_not_any v hany2
    refine ⟨?_, hmap, ?_, ?_⟩
    · show (match mapFind c.map k with
            | some v => (some v, { c with map := mapSet (mapDelete c.map k) k v })
            | none => (none, c) : Option V × LRUCache K V).1 = some v
      rw [hf]
    · rw [hmap, mapFind_append]
      have : mapFind (mapDelete c.map k) k = none := by
        rw [mapFind_eq_none]
        intro q hq hqk
        have : ((mapDelete c.map k).any fun q => q.1 = k) = true :=
          List.any_eq_true.mpr ⟨q, hq, by simpa using hqk⟩
        simp [this] at hany2
      simp [this, mapFind_cons]
    · rw [hmap]
      simp only [List.length_append, List.length_singleton]
      rw [length_mapDelete_of_any (any_of_mapFind_some hf)]

/-- Witness for C10 at capacity 2 with a concrete operation sequence, a
concrete full cache receiving a fresh key, and a concrete refreshed get. -/
theorem C10_lru_invariants_witness :
    ((LRUCache.empty Nat Nat 2).run Samples.c10Ops).map.length ≤ 2
    ∧ (LRUCache.put { capacity := 2, map := [(1, 10), (2, 20)] } 3 30).map
        = [(2, 20)] ++ [(3, 30)]
    ∧ ((LRUCache.get { capacity := 2, map := [(1, 10), (2, 20)] } 1).1 = some 10
        ∧ (LRUCache.get { capacity := 2, map := [(1, 10), (2, 20)] } 1).2.map
            = mapDelete [(1, 10), (2, 20)] 1 ++ [(1, 10)]
        ∧ mapFind (LRUCache.get { capacity := 2, map := [(1, 10), (2, 20)] } 1).2.map 1
            = some 10
        ∧ (LRUCache.get { capacity := 2, map := [(1, 10), (2, 20)] } 1).2.map.length
            = ([(1, 10), (2, 20)] : List (Nat × Nat)).length) :=
  ⟨(C10_lru_invariants 2 (by decide)).1 Samples.c10Ops,
   (C10_lru_invariants 2 (by decide)).2.1
     { capacity := 2, map := [(1, 10), (2, 20)] } 3 30 (1, 10) [(2, 20)]
     (by decide) rfl rfl,
   (C10_lru_invariants 2 (by decide)).2.2
     { capacity := 2, map := [(1, 10), (2, 20)] } 1 10 (by decide) (by decide)⟩

/-! ## Claim C6: contiguous sequence stamping and commit -/

theorem stampSeqs_map_seq (l : List ChangeEntry) : ∀ s : Nat,
    (DriveHandler.stampSeqs s l).map (·.seq) = List.range' (s + 1) l.length := by
  induction l with
  | nil => intro s; rfl
  | cons c rest ih =>
    intro s
    simp only [DriveHandler.stampSeqs, List.map_cons, List.length_cons, ih (s + 1),
      List.range'_succ]

theorem stampSeqs_getLast_seq (l : List ChangeEntry) : ∀ s : Nat, l ≠ [] →
    ((DriveHandler.stampSeqs s l).getLast?.map (·.seq)) = some (s + l.length) := by
  induction l with
  | nil => intro s h; exact absurd rfl h
  | cons c rest ih =>
    intro s _
    cases rest with
    | nil => rfl
    | cons d t =>
      show ((DriveHandler.stampSeqs s (c :: d :: t)).getLast?.map (·.seq)) = _
      rw [show DriveHandler.stampSeqs s (c :: d :: t)
            = { c with seq := s + 1 } :: DriveHandler.stampSeqs (s + 1) (d :: t) from rfl]
      rw [show DriveHandler.stampSeqs (s + 1) (d :: t)
            = { d with seq := s + 2 } :: DriveHandler.stampSeqs (s + 2) t from rfl]
      rw [List.getLast?_cons_cons]
      rw [show ({ d with seq := s + 2 } : ChangeEntry) :: DriveHandler.stampSeqs (s + 2) t
            = DriveHandler.stampSeqs (s + 1) (d :: t) from rfl]
      rw [ih (s + 1) (by simp)]
      simp only [List.length_cons, Option.some.injEq]
      omega

/-- Claim C6: stamping a batch of n entries from local sequence s gives
exactly the contiguous, strictly increasing, pairwise distinct sequence
numbers s+1 ... s+n, and a successful tryAppendChanges commit then sets
the local metadata sequence to s+n, the highest stamped sequence. -/
theorem C6_contiguous_sequences (s : Nat) (changes : List ChangeEntry)
    (st : DriveHandler.LocalState) (fileId : String) (hne : changes ≠ []) :
    ((DriveHandler.stampSeqs s changes).map (·.seq)
        = List.range' (s + 1) changes.length)
    ∧ ((DriveHandler.stampSeqs s changes).map (·.seq)).Pairwise (· < ·)
    ∧ ((DriveHandler.stampSeqs s changes).map (·.seq)).Nodup
    ∧ (st.meta.seq = s →
        (DriveHandler.tryAppendCommit st fileId
            (DriveHandler.stampSeqs s changes)).meta.seq = s + changes.length
        ∧ (DriveHandler.tryAppendCommit st fileId
            (DriveHandler.stampSeqs s changes)).meta.changeLogIds
          = st.meta.changeLogIds ++ [fileId]) := by
  refine ⟨stampSeqs_map_seq changes s, ?_, ?_, ?_⟩
  · rw [stampSeqs_map_seq changes s]
    exact List.pairwise_lt_range' _ _
  · rw [stampSeqs_map_seq changes s]
    exact List.nodup_range' _ _
  · intro _
    constructor
    · show ((DriveHandler.stampSeqs s changes).getLast?.map (·.seq)).getD 0
          = s + changes.length
      rw [stampSeqs_getLast_seq changes s hne]
      rfl
    · rfl

/-- Witness for C6 at sequence 10 with a concrete two-entry batch. -/
theorem C6_contiguous_sequences_witness :
    ((DriveHandler.stampSeqs 10 Samples.freshBatch).map (·.seq)
        = List.range' 11 Samples.freshBatch.length)
    ∧ ((DriveHandler.stampSeqs 10 Samples.freshBatch).map (·.seq)).Pairwise (· < ·)
    ∧ ((DriveHandler.stampSeqs 10 Samples.freshBatch).map (·.seq)).Nodup
    ∧ ((DriveHandler.tryAppendCommit Samples.c6State "logNew"
          (DriveHandler.stampSeqs 10 Samples.freshBatch)).meta.seq
            = 10 + Samples.freshBatch.length
        ∧ (DriveHandler.tryAppendCommit Samples.c6State "logNew"
            (DriveHandler.stampSeqs 10 Samples.freshBatch)).meta.changeLogIds
          = Samples.c6State.meta.changeLogIds ++ ["logNew"]) := by
  obtain ⟨h1, h2, h3, h4⟩ :=
    C6_contiguous_sequences 10 Samples.freshBatch Samples.c6State "logNew" (by decide)
  exact ⟨h1, h2, h3, h4 rfl⟩

/-! ## Claims C3 and C4: conflict re-validation and the retry loop -/

theorem isStale_stamp (ix : DriveHandler.Index) (c : ChangeEntry) (x : Nat) :
    DriveHandler.isStale ix { c with seq := x } = DriveHandler.isStale ix c := rfl

theorem checkConflicts_stampSeqs (l : List ChangeEntry) : ∀ (ix : DriveHandler.Index) (s : Nat),
    DriveHandler.checkConflicts ix (DriveHandler.stampSeqs s l)
      = DriveHandler.checkConflicts ix l := by
  induction l with
  | nil => intro ix s; rfl
  | cons c rest ih =>
    intro ix s
    simp only [DriveHandler.stampSeqs, DriveHandler.checkConflicts, List.findSome?_cons]
      at ih ⊢
    rw [isStale_stamp]
    cases DriveHandler.isStale ix c <;> simp [ih]

theorem stampSeqs_stampSeqs (l : List ChangeEntry) : ∀ s t : Nat,
    DriveHandler.stampSeqs s (DriveHandler.stampSeqs t l) = DriveHandler.stampSeqs s l := by
  induction l with
  | nil => intro s t; rfl
  | cons c rest ih =>
    intro s t
    simp only [DriveHandler.stampSeqs, ih]

theorem checkConflicts_none_or_conflictError (ix : DriveHandler.Index)
    (l : List ChangeEntry) :
    DriveHandler.checkConflicts ix l = none
    ∨ DriveHandler.checkConflicts ix l = some DriveHandler.conflictError := by
  induction l with
  | nil => exact Or.inl rfl
  | cons c rest ih =>
    simp only [DriveHandler.checkConflicts, List.findSome?_cons] at ih ⊢
    cases DriveHandler.isStale ix c with
    | true => exact Or.inr (by simp)
    | false => simpa using ih

theorem checkConflicts_eq_some_of_stale {ix : DriveHandler.Index} {l : List ChangeEntry}
    {c : ChangeEntry} (hm : c ∈ l) (hs : DriveHandler.isStale ix c = true) :
    DriveHandler.checkConflicts ix l = some DriveHandler.conflictError := by
  rcases checkConflicts_none_or_conflictError ix l with h | h
  · exfalso
    have := List.findSome?_eq_none_iff.mp h c hm
    simp [hs] at this
  · exact h

theorem appendLoop_step_ok (script : Nat → DriveHandler.AppendAttempt)
    (fuel attempt : Nat) (changes : List ChangeEntry)
    (h : (script attempt).outcome = .ok) :
    DriveHandler.appendLoop script (fuel + 1) attempt changes = .success changes := by
  simp only [DriveHandler.appendLoop, h]

theorem appendLoop_step_nostatus (script : Nat → DriveHandler.AppendAttempt)
    (fuel attempt : Nat) (changes : List ChangeEntry)
    (h : (script attempt).outcome = .errNoStatus) :
    DriveHandler.appendLoop script (fuel + 1) attempt changes = .propagated none := by
  simp only [DriveHandler.appendLoop, h]

theorem appendLoop_step_nonretryable (script : Nat → DriveHandler.AppendAttempt)
    (fuel attempt : Nat) (changes : List ChangeEntry) (s : Nat)
    (h : (script attempt).outcome = .errStatus s) (hr : DriveHandler.retryableStatus s = false) :
    DriveHandler.appendLoop script (fuel + 1) attempt changes = .propagated (some s) := by
  simp only [DriveHandler.appendLoop, h, hr]
  rfl

theorem appendLoop_step_conflictError (script : Nat → DriveHandler.AppendAttempt)
    (fuel attempt : Nat) (changes : List ChangeEntry) (s : Nat)
    (e : DriveHandler.ConflictError)
    (h : (script attempt).outcome = .errStatus s) (hr : DriveHandler.retryableStatus s = true)
    (hc : DriveHandler.checkConflicts (script attempt).reloadIndex changes = some e) :
    DriveHandler.appendLoop script (fuel + 1) attempt changes = .conflict e := by
  simp only [DriveHandler.appendLoop, h, hr, hc]
  rfl

theorem appendLoop_step_retry (script : Nat → DriveHandler.AppendAttempt)
    (fuel attempt : Nat) (changes : List ChangeEntry) (s : Nat)
    (h : (script attempt).outcome = .errStatus s) (hr : DriveHandler.retryableStatus s = true)
    (hc : DriveHandler.checkConflicts (script attempt).reloadIndex changes = none) :
    DriveHandler.appendLoop script (fuel + 1) attempt changes
      = DriveHandler.appendLoop script fuel (attempt + 1)
          (DriveHandler.stampSeqs (script attempt).reloadMeta.seq changes) := by
  simp only [DriveHandler.appendLoop, h, hr, hc]
  rfl

/-- After k clean retryable failures the loop stands at attempt + k with
the budget reduced by k and the batch restamped from the last reload. -/
theorem appendLoop_after_clean (script : Nat → DriveHandler.AppendAttempt)
    (changes : List ChangeEntry) :
    ∀ (k fuel attempt : Nat) (c' : List ChangeEntry), k ≤ fuel →
    (∀ ix, DriveHandler.checkConflicts ix c' = DriveHandler.checkConflicts ix changes) →
    (∀ s, DriveHandler.stampSeqs s c' = DriveHandler.stampSeqs s changes) →
    (∀ j, attempt ≤ j → j < attempt + k → DriveHandler.cleanConflict script changes j) →
    DriveHandler.appendLoop script fuel attempt c'
      = DriveHandler.appendLoop script (fuel - k) (attempt + k)
          (match k with
           | 0 => c'
           | k' + 1 => DriveHandler.stampSeqs ((script (attempt + k')).reloadMeta.seq) changes) := by
  intro k
  induction k with
  | zero => intro fuel attempt c' _ _ _ _; rfl
  | succ k ih =>
    intro fuel attempt c' hk hcc hss hclean
    obtain ⟨fuel, rfl⟩ : ∃ f, fuel = f + 1 := ⟨fuel - 1, by omega⟩
    obtain ⟨⟨s, ho, hr⟩, hcheck⟩ :=
      hclean attempt (le_refl attempt) (by omega)
    have hc' : DriveHandler.checkConflicts (script attempt).reloadIndex c' = none := by
      rw [hcc]; exact hcheck
    rw [appendLoop_step_retry script fuel attempt c' s ho hr hc']
    rw [hss]
    have := ih fuel (attempt + 1)
      (DriveHandler.stampSeqs (script attempt).reloadMeta.seq changes)
      (by omega)
      (fun ix => checkConflicts_stampSeqs changes ix _)
      (fun s2 => stampSeqs_stampSeqs changes s2 _)
      (fun j hj1 hj2 => hclean j (by omega) (by omega))
    rw [this]
    cases k with
    | zero =>
      show DriveHandler.appendLoop script (fuel - 0) (attempt + 1 + 0)
          (DriveHandler.stampSeqs ((script attempt).reloadMeta.seq) changes)
        = DriveHandler.appendLoop script (fuel + 1 - (0 + 1)) (attempt + (0 + 1))
          (DriveHandler.stampSeqs ((script (attempt + 0)).reloadMeta.seq) changes)
      simp
    | succ k2 =>
      show DriveHandler.appendLoop script (fuel - (k2 + 1)) (attempt + 1 + (k2 + 1))
          (DriveHandler.stampSeqs ((script (attempt + 1 + k2)).reloadMeta.seq) changes)
        = DriveHandler.appendLoop script (fuel + 1 - (k2 + 1 + 1)) (attempt + (k2 + 1 + 1))
          (DriveHandler.stampSeqs ((script (attempt + (k2 + 1))).reloadMeta.seq) changes)
      rw [show attempt + 1 + k2 = attempt + (k2 + 1) from by omega,
        show attempt + 1 + (k2 + 1) = attempt + (k2 + 1 + 1) from by omega,
        show fuel - (k2 + 1) = fuel + 1 - (k2 + 1 + 1) from by omega]

/-- Claim C4: a retryable (412/409) failure leads to reload,
re-validation and a re-stamped retry, bounded by MAX_RETRIES attempts
after which the whole batch fails; a success at attempt k commits the
batch restamped from the last reload; a non-retryable error observed at
any attempt propagates immediately. -/
theorem C4_retry_bound (script : Nat → DriveHandler.AppendAttempt)
    (changes : List ChangeEntry) :
    ((∀ j, j < DriveHandler.MAX_RETRIES → DriveHandler.cleanConflict script changes j) →
      DriveHandler.appendChanges script changes = .exhausted)
    ∧ (∀ k, k < DriveHandler.MAX_RETRIES →
        (∀ j, j < k → DriveHandler.cleanConflict script changes j) →
        ((script k).outcome = .ok →
          DriveHandler.appendChanges script changes = .success
            (match k with
             | 0 => changes
             | k' + 1 => DriveHandler.stampSeqs ((script k').reloadMeta.seq) changes))
        ∧ (∀ s, (script k).outcome = .errStatus s →
            DriveHandler.retryableStatus s = false →
            DriveHandler.appendChanges script changes = .propagated (some s))
        ∧ ((script k).outcome = .errNoStatus →
            DriveHandler.appendChanges script changes = .propagated none)) := by
  constructor
  · intro hclean
    show DriveHandler.appendLoop script DriveHandler.MAX_RETRIES 0 changes = .exhausted
    rw [appendLoop_after_clean script changes DriveHandler.MAX_RETRIES
      DriveHandler.MAX_RETRIES 0 changes (le_refl _) (fun _ => rfl) (fun _ => rfl)
      (fun j _ hj2 => hclean j (by simpa using hj2))]
    rfl
  · intro k hk hclean
    have hbase := appendLoop_after_clean script changes k DriveHandler.MAX_RETRIES 0 changes
      (by omega) (fun _ => rfl) (fun _ => rfl)
      (fun j _ hj2 => hclean j (by simpa using hj2))
    simp only [Nat.zero_add] at hbase
    obtain ⟨f, hf⟩ : ∃ f, DriveHandler.MAX_RETRIES - k = f + 1 :=
      ⟨DriveHandler.MAX_RETRIES - k - 1, by simp [DriveHandler.MAX_RETRIES] at hk ⊢; omega⟩
    refine ⟨?_, ?_, ?_⟩
    · intro hok
      show DriveHandler.appendLoop script DriveHandler.MAX_RETRIES 0 changes = _
      rw [hbase, hf]
      exact appendLoop_step_ok script f k _ hok
    · intro s ho hr
      show DriveHandler.appendLoop script DriveHandler.MAX_RETRIES 0 changes = _
      rw [hbase, hf]
      exact appendLoop_step_nonretryable script f k _ s ho hr
    · intro ho
      show DriveHandler.appendLoop script DriveHandler.MAX_RETRIES 0 changes = _
      rw [hbase, hf]
      exact appendLoop_step_nostatus script f k _ ho

/-- Counterexample to claim C3: the conflict error does not carry the
document id of the stale entry.  Two stale batches for two different
document ids produce the identical error value — status 409, name
conflict, and a fixed message — from which the offending id cannot be
recovered. -/
theorem C3_counterexample :
    DriveHandler.checkConflicts Samples.c3IndexA [Samples.c3PendingA]
        = some DriveHandler.conflictError
    ∧ DriveHandler.checkConflicts Samples.c3IndexB [Samples.c3PendingB]
        = some DriveHandler.conflictError
    ∧ Samples.c3PendingA.id ≠ Samples.c3PendingB.id
    ∧ DriveHandler.conflictError
        = { status := 409, name := "conflict", message := "Document update conflict" } :=
  ⟨by decide, by decide, by decide, rfl⟩

/-- Claim C3 amended: a pending entry whose target has an index entry of
generation at least the generation of the pending revision is stale; any
stale entry fails the whole batch with the fixed Conflict error (status
409, name conflict, no document id); and this re-validation runs after the
reload of every retry iteration, not only the first. -/
theorem C3_stale_revalidation (ix : DriveHandler.Index) (changes : List ChangeEntry) :
    (∀ (ch : ChangeEntry) (entry : IndexEntry) (cur new : Nat),
        mapFind ix ch.id = some entry →
        DriveHandler.revGen entry.rev = some cur →
        DriveHandler.revGen ch.rev = some new →
        new ≤ cur → DriveHandler.isStale ix ch = true)
    ∧ (∀ c ∈ changes, DriveHandler.isStale ix c = true →
        DriveHandler.checkConflicts ix changes = some DriveHandler.conflictError
        ∧ DriveHandler.conflictError.status = 409
        ∧ DriveHandler.conflictError.name = "conflict")
    ∧ (∀ (script : Nat → DriveHandler.AppendAttempt) (k : Nat),
        k < DriveHandler.MAX_RETRIES →
        (∀ j, j < k → DriveHandler.cleanConflict script changes j) →
        (∃ s, (script k).outcome = .errStatus s ∧ DriveHandler.retryableStatus s = true) →
        DriveHandler.checkConflicts (script k).reloadIndex changes
          = some DriveHandler.conflictError →
        DriveHandler.appendChanges script changes
          = .conflict DriveHandler.conflictError) := by
  refine ⟨?_, ?_, ?_⟩
  · intro ch entry cur new h1 h2 h3 h4
    simp only [DriveHandler.isStale, h1, h2, h3]
    simpa using h4
  · intro c hc hs
    exact ⟨checkConflicts_eq_some_of_stale hc hs, rfl, rfl⟩
  · intro script k hk hclean hex hcheck
    obtain ⟨s, ho, hr⟩ := hex
    have hbase := appendLoop_after_clean script changes k DriveHandler.MAX_RETRIES 0 changes
      (by omega) (fun _ => rfl) (fun _ => rfl)
      (fun j _ hj2 => hclean j (by simpa using hj2))
    simp only [Nat.zero_add] at hbase
    obtain ⟨f, hf⟩ : ∃ f, DriveHandler.MAX_RETRIES - k = f + 1 :=
      ⟨DriveHandler.MAX_RETRIES - k - 1, by simp [DriveHandler.MAX_RETRIES] at hk ⊢; omega⟩
    show DriveHandler.appendLoop script DriveHandler.MAX_RETRIES 0 changes = _
    rw [hbase, hf]
    refine appendLoop_step_conflictError script f k _ s DriveHandler.conflictError ho hr ?_
    cases k with
    | zero => exact hcheck
    | succ k2 =>
      show DriveHandler.checkConflicts (script (k2 + 1)).reloadIndex
          (DriveHandler.stampSeqs ((script k2).reloadMeta.seq) changes) = _
      rw [checkConflicts_stampSeqs]
      exact hcheck

/-- Witness for C3 amended: a concrete stale batch for document docA fails
with the conflict error, both on direct validation and inside the retry
loop at attempt 0 after a 409 with a stale reload. -/
theorem C3_stale_revalidation_witness :
    DriveHandler.isStale Samples.c3IndexA Samples.c3PendingA = true
    ∧ (DriveHandler.checkConflicts Samples.c3IndexA [Samples.c3PendingA]
          = some DriveHandler.conflictError
        ∧ DriveHandler.conflictError.status = 409
        ∧ DriveHandler.conflictError.name = "conflict")
    ∧ DriveHandler.appendChanges Samples.scriptStaleReload [Samples.c3PendingA]
        = .conflict DriveHandler.conflictError :=
  ⟨(C3_stale_revalidation Samples.c3IndexA [Samples.c3PendingA]).1
      Samples.c3PendingA
      { rev := "2-aaa", seq := 7, deleted := false, location := { fileId := "f1" } }
      2 2 (by decide) (by decide) (by decide) (by decide),
   (C3_stale_revalidation Samples.c3IndexA [Samples.c3PendingA]).2.1
      Samples.c3PendingA (by decide) (by decide),
   (C3_stale_revalidation Samples.c3IndexA [Samples.c3PendingA]).2.2
      Samples.scriptStaleReload 0 (by decide)
      (fun j hj => absurd hj (by omega)) ⟨409, rfl, rfl⟩ (by decide)⟩

/-- Witness for C4: five straight conflicts exhaust the bound; a 404 at
the second attempt propagates; a success at the second attempt commits
the batch restamped from the reloaded sequence. -/
theorem C4_retry_bound_witness :
    DriveHandler.appendChanges Samples.scriptAllConflicts Samples.freshBatch = .exhausted
    ∧ DriveHandler.appendChanges Samples.scriptThenNotFound Samples.freshBatch
        = .propagated (some 404)
    ∧ DriveHandler.appendChanges Samples.scriptThenOk Samples.freshBatch
        = .success (DriveHandler.stampSeqs Samples.reload0.seq Samples.freshBatch) :=
  ⟨(C4_retry_bound Samples.scriptAllConflicts Samples.freshBatch).1
      (fun j _ => ⟨⟨412, rfl, rfl⟩, rfl⟩),
   ((C4_retry_bound Samples.scriptThenNotFound Samples.freshBatch).2 1 (by decide)
      (fun j hj => by
        have : j = 0 := by omega
        subst this
        exact ⟨⟨409, rfl, rfl⟩, by decide⟩)).2.1 404 rfl (by decide),
   ((C4_retry_bound Samples.scriptThenOk Samples.freshBatch).2 1 (by decide)
      (fun j hj => by
        have : j = 0 := by omega
        subst this
        exact ⟨⟨412, rfl, rfl⟩, by decide⟩)).1 rfl⟩

/-! ## Claim C7: last-writer-wins during replay -/

theorem getLast?_mem_list {α : Type} {l : List α} {a : α} (h : l.getLast? = some a) :
    a ∈ l := by
  obtain ⟨hne, rfl⟩ := List.mem_getLast?_eq_getLast (Option.mem_def.mpr h)
  exact List.getLast_mem hne

theorem mem_occurrencesFor {id : String} {stream : List (String × ChangeEntry)}
    {q : String × ChangeEntry} (h : q ∈ DriveHandler.occurrencesFor id stream) :
    q ∈ stream ∧ q.2.id = id := by
  have h2 := List.mem_filter.mp h
  exact ⟨h2.1, by simpa using h2.2⟩

/-- Counterexample to claim C7: replaying a log list in which a later log
carries a lower sequence number for document a leaves the index holding
the stale sequence-1 entry although a sequence-2 entry for a was replayed:
updateIndex overwrites by replay order, not by comparing sequence
numbers. -/
theorem C7_counterexample :
    mapFind (DriveHandler.replayLogs [] Samples.c7Logs) "a"
        = some { rev := "1-y", seq := 1, deleted := false, location := { fileId := "f2" } }
    ∧ (∃ p ∈ DriveHandler.flatStream Samples.c7Logs, p.2.id = "a" ∧ p.2.seq = 2)
    ∧ (∀ e, mapFind (DriveHandler.replayLogs [] Samples.c7Logs) "a" = some e →
        e.seq ≠ 2) :=
  ⟨by decide, by decide, by decide⟩

/-- Applying a stream whose sequence numbers strictly increase, over a
base index whose sequences all precede the stream, installs for each id
the last occurrence, and that occurrence carries the maximal sequence. -/
theorem applyStream_lww (stream : List (String × ChangeEntry)) :
    ∀ (ix0 : DriveHandler.Index) (id : String),
    ((stream.map (fun p => p.2.seq)).Pairwise (· < ·)) →
    (∀ q ∈ ix0, ∀ p ∈ stream, q.2.seq < p.2.seq) →
    (DriveHandler.occurrencesFor id stream = [] →
      mapFind (DriveHandler.applyStream ix0 stream) id = mapFind ix0 id)
    ∧ (∀ p, (DriveHandler.occurrencesFor id stream).getLast? = some p →
        mapFind (DriveHandler.applyStream ix0 stream) id = some (DriveHandler.entryOf p)
        ∧ (∀ q ∈ DriveHandler.occurrencesFor id stream, q.2.seq ≤ p.2.seq)
        ∧ (∀ en, mapFind ix0 id = some en → en.seq < p.2.seq)) := by
  induction stream with
  | nil =>
    intro ix0 id _ _
    exact ⟨fun _ => rfl, fun p hp => by simp [DriveHandler.occurrencesFor] at hp⟩
  | cons hd tl ih =>
    intro ix0 id hsorted hbase
    have hsorted2 : (tl.map (fun p => p.2.seq)).Pairwise (· < ·) := by
      simp only [List.map_cons, List.pairwise_cons] at hsorted
      exact hsorted.2
    have hhd_lt : ∀ p ∈ tl, hd.2.seq < p.2.seq := by
      simp only [List.map_cons, List.pairwise_cons] at hsorted
      intro p hp
      exact hsorted.1 _ (List.mem_map_of_mem _ hp)
    have hbase2 : ∀ q ∈ DriveHandler.updateIndex ix0 hd.2 hd.1, ∀ p ∈ tl,
        q.2.seq < p.2.seq := by
      intro q hq p hp
      rcases mem_mapSet hq with hq1 | hq1
      · rw [hq1]
        exact hhd_lt p hp
      · exact hbase q hq1 p (List.mem_cons_of_mem _ hp)
    have happly : DriveHandler.applyStream ix0 (hd :: tl)
        = DriveHandler.applyStream (DriveHandler.updateIndex ix0 hd.2 hd.1) tl := rfl
    obtain ⟨ihempty, ihlast⟩ := ih (DriveHandler.updateIndex ix0 hd.2 hd.1) id hsorted2 hbase2
    by_cases hid : hd.2.id = id
    · have hocc : DriveHandler.occurrencesFor id (hd :: tl)
          = hd :: DriveHandler.occurrencesFor id tl := by
        simp [DriveHandler.occurrencesFor, List.filter_cons, hid]
      constructor
      · intro hemp
        rw [hocc] at hemp
        exact absurd hemp (by simp)
      · intro p hp
        rw [hocc] at hp
        cases htl : DriveHandler.occurrencesFor id tl with
        | nil =>
          rw [htl] at hp
          have hpe : hd = p := by simpa using hp
          subst hpe
          refine ⟨?_, ?_, ?_⟩
          · rw [happly, ihempty htl]
            show mapFind (mapSet ix0 hd.2.id (DriveHandler.entryOf hd)) id = _
            rw [← hid]
            exact mapFind_mapSet_self ix0 hd.2.id (DriveHandler.entryOf hd)
          · intro q hq
            rw [hocc, htl] at hq
            have : q = hd := by simpa using hq
            rw [this]
          · intro en hen
            exact hbase (id, en) (mapFind_mem hen) hd (List.mem_cons_self _ _)
        | cons q2 t2 =>
          rw [htl] at hp
          rw [List.getLast?_cons_cons] at hp
          obtain ⟨h1, h2, h3⟩ := ihlast p (by rw [htl]; exact hp)
          have hpocc : p ∈ DriveHandler.occurrencesFor id tl := by
            rw [htl]
            exact getLast?_mem_list hp
          have hptl : p ∈ tl := (mem_occurrencesFor hpocc).1
          refine ⟨by rw [happly]; exact h1, ?_, ?_⟩
          · intro q hq
            rw [hocc] at hq
            rcases List.mem_cons.mp hq with hq1 | hq1
            · rw [hq1]
              exact le_of_lt (hhd_lt p hptl)
            · exact h2 q hq1
          · intro en hen
            exact hbase (id, en) (mapFind_mem hen) p (List.mem_cons_of_mem _ hptl)
    · have hocc : DriveHandler.occurrencesFor id (hd :: tl)
          = DriveHandler.occurrencesFor id tl := by
        simp [DriveHandler.occurrencesFor, List.filter_cons, hid]
      have hfind : mapFind (DriveHandler.updateIndex ix0 hd.2 hd.1) id = mapFind ix0 id := by
        show mapFind (mapSet ix0 hd.2.id _) id = _
        exact mapFind_mapSet_ne ix0 hd.2.id id _ (fun he => hid he.symm)
      constructor
      · intro hemp
        rw [happly, ihempty (by rw [← hocc]; exact hemp), hfind]
      · intro p hp
        obtain ⟨h1, h2, h3⟩ := ihlast p (by rw [← hocc]; exact hp)
        refine ⟨by rw [happly]; exact h1, ?_, ?_⟩
        · intro q hq
          exact h2 q (by rw [← hocc]; exact hq)
        · intro en hen
          exact h3 en (by rw [hfind]; exact hen)

theorem replayLog_eq_applyStream (ix : DriveHandler.Index) (lg : String × List ChangeEntry) :
    DriveHandler.replayLog ix lg
      = DriveHandler.applyStream ix (lg.2.map (fun c => (lg.1, c))) := by
  show lg.2.foldl (fun ix c => DriveHandler.updateIndex ix c lg.1) ix = _
  simp only [DriveHandler.applyStream, List.foldl_map]

theorem replayLogs_eq_applyStream (logs : List (String × List ChangeEntry)) :
    ∀ ix : DriveHandler.Index, DriveHandler.replayLogs ix logs
      = DriveHandler.applyStream ix (DriveHandler.flatStream logs) := by
  induction logs with
  | nil => intro ix; rfl
  | cons lg ls ih =>
    intro ix
    show DriveHandler.replayLogs (DriveHandler.replayLog ix lg) ls = _
    rw [ih, replayLog_eq_applyStream]
    rw [show DriveHandler.flatStream (lg :: ls)
        = lg.2.map (fun c => (lg.1, c)) ++ DriveHandler.flatStream ls from rfl]
    simp only [DriveHandler.applyStream, List.foldl_append]

/-- Claim C7 amended: load() applies each replayed entry by overwriting,
so the index holds the LAST replayed entry per document id; whenever the
flattened replay stream is in strictly increasing sequence order and the
snapshot base lies below the stream — both guaranteed for streams the
append protocol committed — that last entry is the one with the highest
sequence number among all entries replayed for the id, and it dominates
any snapshot entry; ids without replayed entries keep their snapshot
entry.  The code decides last-writer-wins by replay order, not by a
sequence-number comparison. -/
theorem C7_replay_lww (ix0 : DriveHandler.Index) (logs : List (String × List ChangeEntry))
    (id : String)
    (hsorted : ((DriveHandler.flatStream logs).map (fun p => p.2.seq)).Pairwise (· < ·))
    (hbase : ∀ q ∈ ix0, ∀ p ∈ DriveHandler.flatStream logs, q.2.seq < p.2.seq) :
    (DriveHandler.occurrencesFor id (DriveHandler.flatStream logs) = [] →
      mapFind (DriveHandler.replayLogs ix0 logs) id = mapFind ix0 id)
    ∧ (∀ p, (DriveHandler.occurrencesFor id (DriveHandler.flatStream logs)).getLast?
          = some p →
        mapFind (DriveHandler.replayLogs ix0 logs) id = some (DriveHandler.entryOf p)
        ∧ (∀ q ∈ DriveHandler.occurrencesFor id (DriveHandler.flatStream logs),
            q.2.seq ≤ p.2.seq)
        ∧ (∀ en, mapFind ix0 id = some en → en.seq < p.2.seq)) := by
  rw [replayLogs_eq_applyStream logs ix0]
  exact applyStream_lww (DriveHandler.flatStream logs) ix0 id hsorted hbase

/-- Witness for C7 amended: the two-log replay in sequence order leaves
document a at the sequence-2 entry of log f1. -/
theorem C7_replay_lww_witness :
    mapFind (DriveHandler.replayLogs [] Samples.c7SortedLogs) "a"
        = some (DriveHandler.entryOf
            ("f1", { seq := 2, id := "a", rev := "2-x", timestamp := 0 }))
    ∧ (∀ q ∈ DriveHandler.occurrencesFor "a" (DriveHandler.flatStream Samples.c7SortedLogs),
        q.2.seq ≤ 2)
    ∧ (∀ en, mapFind ([] : DriveHandler.Index) "a" = some en → en.seq < 2) :=
  (C7_replay_lww [] Samples.c7SortedLogs "a" (by decide) (by simp)).2
    ("f1", { seq := 2, id := "a", rev := "2-x", timestamp := 0 }) (by decide)

/-! ## Claim C5: change-log round-trip -/

theorem digitChar_isDigit {d : Nat} (h : d < 10) : (Nat.digitChar d).isDigit = true := by
  interval_cases d <;> decide

theorem digitChar_toNat {d : Nat} (h : d < 10) : (Nat.digitChar d).toNat - 48 = d := by
  interval_cases d <;> decide

theorem natCharsAux_ne_nil {fuel n : Nat} (h : n < fuel) :
    DriveHandler.natCharsAux fuel n ≠ [] := by
  cases fuel with
  | zero => omega
  | succ f =>
    unfold DriveHandler.natCharsAux
    by_cases h10 : n < 10
    · simp [h10]
    · simp [h10]

theorem natCharsAux_digits {fuel : Nat} : ∀ {n : Nat}, n < fuel →
    ∀ c ∈ DriveHandler.natCharsAux fuel n, c.isDigit = true := by
  induction fuel with
  | zero => intro n h; omega
  | succ f ih =>
    intro n h c hc
    unfold DriveHandler.natCharsAux at hc
    by_cases h10 : n < 10
    · rw [if_pos h10] at hc
      simp only [List.mem_singleton] at hc
      rw [hc]
      exact digitChar_isDigit h10
    · rw [if_neg h10] at hc
      rcases List.mem_append.mp hc with hc1 | hc1
      · have hdiv : n / 10 < f := by
          have := Nat.div_lt_self (by omega : 0 < n) (by omega : 1 < 10)
          omega
        exact ih hdiv c hc1
      · simp only [List.mem_singleton] at hc1
        rw [hc1]
        exact digitChar_isDigit (Nat.mod_lt n (by omega))

theorem charsToNat_natCharsAux {fuel : Nat} : ∀ {n : Nat}, n < fuel → ∀ acc : Nat,
    List.foldl (fun a c => a * 10 + (c.toNat - 48)) acc (DriveHandler.natCharsAux fuel n)
      = acc * 10 ^ (DriveHandler.natCharsAux fuel n).length + n := by
  induction fuel with
  | zero => intro n h; omega
  | succ f ih =>
    intro n h acc
    unfold DriveHandler.natCharsAux
    by_cases h10 : n < 10
    · rw [if_pos h10]
      simp only [List.foldl_cons, List.foldl_nil, List.length_singleton]
      rw [digitChar_toNat h10]
      ring
    · rw [if_neg h10]
      have hdiv : n / 10 < f := by
        have := Nat.div_lt_self (by omega : 0 < n) (by omega : 1 < 10)
        omega
      rw [List.foldl_append, ih hdiv acc]
      simp only [List.foldl_cons, List.foldl_nil, List.length_append,
        List.length_singleton]
      rw [digitChar_toNat (Nat.mod_lt n (by omega))]
      rw [pow_succ]
      have hmod := Nat.div_add_mod n 10
      ring_nf
      omega

theorem natChars_ne_nil (n : Nat) : DriveHandler.natChars n ≠ [] :=
  natCharsAux_ne_nil (by omega)

theorem natChars_digits (n : Nat) : ∀ c ∈ DriveHandler.natChars n, c.isDigit = true :=
  natCharsAux_digits (by omega)

theorem charsToNat_natChars (n : Nat) :
    DriveHandler.charsToNat (DriveHandler.natChars n) = n := by
  unfold DriveHandler.charsToNat DriveHandler.natChars
  rw [charsToNat_natCharsAux (by omega : n < n + 1) 0]
  simp

theorem takeWhile_append_stop {p : Char → Bool} : ∀ (xs : DriveHandler.Chars)
    {y : Char} (t : DriveHandler.Chars), (∀ c ∈ xs, p c = true) → p y = false →
    (xs ++ y :: t).takeWhile p = xs := by
  intro xs
  induction xs with
  | nil =>
    intro y t _ hy
    simp [List.takeWhile_cons, hy]
  | cons c cs ih =>
    intro y t hall hy
    simp [List.cons_append, List.takeWhile_cons,
      hall c (List.mem_cons_self _ _), ih t (fun d hd => hall d (List.mem_cons_of_mem _ hd)) hy]

theorem stripExact_append_self : ∀ (pre rest : DriveHandler.Chars),
    DriveHandler.stripExact pre (pre ++ rest) = some rest := by
  intro pre
  induction pre with
  | nil => intro rest; rfl
  | cons c cs ih =>
    intro rest
    simp [DriveHandler.stripExact, ih]

theorem readNat_before {n : Nat} {y : Char} (hy : y.isDigit = false)
    (rest : DriveHandler.Chars) :
    DriveHandler.readNat (DriveHandler.natChars n ++ y :: rest) = some (n, y :: rest) := by
  unfold DriveHandler.readNat
  rw [takeWhile_append_stop (DriveHandler.natChars n) rest (natChars_digits n) hy]
  rw [if_neg (natChars_ne_nil n)]
  rw [charsToNat_natChars]
  rw [List.drop_left]

theorem readNat_comma (n : Nat) (rest : DriveHandler.Chars) :
    DriveHandler.readNat (DriveHandler.natChars n ++ ',' :: rest) = some (n, ',' :: rest) :=
  readNat_before (by decide) rest

theorem readNat_brace (n : Nat) (rest : DriveHandler.Chars) :
    DriveHandler.readNat (DriveHandler.natChars n ++ '\x7d' :: rest)
      = some (n, '\x7d' :: rest) :=
  readNat_before (by decide) rest

theorem mk_str (s : String) : String.mk (DriveHandler.str s) = s := rfl

theorem plainStr_facts {s : String} (h : DriveHandler.plainStr s = true) :
    ∀ c ∈ DriveHandler.str s, ¬ c = '\n' ∧ ¬ c = '"' ∧ ¬ c = '\\' := by
  intro c hc
  have := List.all_eq_true.mp h c hc
  simp only [decide_eq_true_eq] at this
  exact ⟨fun h1 => this (Or.inl h1), fun h2 => this (Or.inr (Or.inl h2)),
    fun h3 => this (Or.inr (Or.inr h3))⟩

theorem readJStr_exact {s : String} (hp : DriveHandler.plainStr s = true)
    (rest : DriveHandler.Chars) :
    DriveHandler.readJStr ('"' :: (DriveHandler.str s ++ '"' :: rest)) = some (s, rest) := by
  have ht : List.takeWhile (fun c => decide ¬ c = '"') (DriveHandler.str s ++ '"' :: rest)
      = DriveHandler.str s :=
    takeWhile_append_stop (DriveHandler.str s) rest
      (fun c hc => by simpa using (plainStr_facts hp c hc).2.1) (by decide)
  simp only [DriveHandler.readJStr, ht, List.drop_left]
  exact congrArg some (congrArg (fun x => (x, rest)) (mk_str s))

theorem strip_idTag (x : DriveHandler.Chars) :
    DriveHandler.stripExact (DriveHandler.str ",\"id\":")
      (',' :: (DriveHandler.str "\"id\":" ++ x)) = some x := by
  rw [show DriveHandler.str ",\"id\":" = ',' :: DriveHandler.str "\"id\":" from rfl]
  simp [DriveHandler.stripExact, stripExact_append_self]

theorem strip_revTag (x : DriveHandler.Chars) :
    DriveHandler.stripExact (DriveHandler.str ",\"rev\":")
      (',' :: (DriveHandler.str "\"rev\":" ++ x)) = some x := by
  rw [show DriveHandler.str ",\"rev\":" = ',' :: DriveHandler.str "\"rev\":" from rfl]
  simp [DriveHandler.stripExact, stripExact_append_self]

theorem strip_tsTag (x : DriveHandler.Chars) :
    DriveHandler.stripExact (DriveHandler.str ",\"timestamp\":")
      (',' :: (DriveHandler.str "\"timestamp\":" ++ x)) = some x := by
  rw [show DriveHandler.str ",\"timestamp\":"
      = ',' :: DriveHandler.str "\"timestamp\":" from rfl]
  simp [DriveHandler.stripExact, stripExact_append_self]

theorem strip_delTag (x : DriveHandler.Chars) :
    DriveHandler.stripExact (DriveHandler.str ",\"deleted\":true")
      (',' :: (DriveHandler.str "\"deleted\":true" ++ x)) = some x := by
  rw [show DriveHandler.str ",\"deleted\":true"
      = ',' :: DriveHandler.str "\"deleted\":true" from rfl]
  simp [DriveHandler.stripExact, stripExact_append_self]

theorem strip_docTag (x : DriveHandler.Chars) :
    DriveHandler.stripExact (DriveHandler.str ",\"doc\":")
      (',' :: (DriveHandler.str "\"doc\":" ++ x)) = some x := by
  rw [show DriveHandler.str ",\"doc\":" = ',' :: DriveHandler.str "\"doc\":" from rfl]
  simp [DriveHandler.stripExact, stripExact_append_self]

theorem strip_delTag_vs_docTag (x : DriveHandler.Chars) :
    DriveHandler.stripExact (DriveHandler.str ",\"deleted\":true")
      (',' :: (DriveHandler.str "\"doc\":" ++ x)) = none := by
  rw [show DriveHandler.str ",\"deleted\":true"
      = [',', '"', 'd', 'e', 'l', 'e', 't', 'e', 'd', '"', ':', 't', 'r', 'u', 'e'] from rfl]
  rw [show DriveHandler.str "\"doc\":" = ['"', 'd', 'o', 'c', '"', ':'] from rfl]
  simp [DriveHandler.stripExact, List.cons_append]

theorem strip_delTag_vs_tsTag (x : DriveHandler.Chars) :
    DriveHandler.stripExact (DriveHandler.str ",\"deleted\":true")
      (',' :: (DriveHandler.str "\"timestamp\":" ++ x)) = none := by
  rw [show DriveHandler.str ",\"deleted\":true"
      = [',', '"', 'd', 'e', 'l', 'e', 't', 'e', 'd', '"', ':', 't', 'r', 'u', 'e'] from rfl]
  rw [show DriveHandler.str "\"timestamp\":"
      = ['"', 't', 'i', 'm', 'e', 's', 't', 'a', 'm', 'p', '"', ':'] from rfl]
  simp [DriveHandler.stripExact, List.cons_append]

theorem strip_docTag_vs_tsTag (x : DriveHandler.Chars) :
    DriveHandler.stripExact (DriveHandler.str ",\"doc\":")
      (',' :: (DriveHandler.str "\"timestamp\":" ++ x)) = none := by
  rw [show DriveHandler.str ",\"doc\":" = [',', '"', 'd', 'o', 'c', '"', ':'] from rfl]
  rw [show DriveHandler.str "\"timestamp\":"
      = ['"', 't', 'i', 'm', 'e', 's', 't', 'a', 'm', 'p', '"', ':'] from rfl]
  simp [DriveHandler.stripExact, List.cons_append]

theorem decodeFinish_exact (seq : Nat) (id rev : String) (deleted : Bool)
    (doc : Option String) (ts : Nat) :
    DriveHandler.decodeFinish seq id rev deleted doc
      (',' :: (DriveHandler.str "\"timestamp\":" ++ (DriveHandler.natChars ts ++ ['\x7d'])))
      = some { seq := seq, id := id, rev := rev, deleted := deleted, doc := doc,
               timestamp := ts } := by
  simp only [DriveHandler.decodeFinish, strip_tsTag, readNat_brace]
  rfl

theorem decodeDoc_some {d : String} (hd : DriveHandler.plainStr d = true)
    (seq : Nat) (id rev : String) (deleted : Bool) (ts : Nat) :
    DriveHandler.decodeDoc seq id rev deleted
      (',' :: (DriveHandler.str "\"doc\":" ++ ('"' :: (DriveHandler.str d ++ '"' ::
        (',' :: (DriveHandler.str "\"timestamp\":"
          ++ (DriveHandler.natChars ts ++ ['\x7d'])))))))
      = some { seq := seq, id := id, rev := rev, deleted := deleted, doc := some d,
               timestamp := ts } := by
  simp only [DriveHandler.decodeDoc, strip_docTag, readJStr_exact hd, decodeFinish_exact]

theorem decodeDoc_none (seq : Nat) (id rev : String) (deleted : Bool) (ts : Nat) :
    DriveHandler.decodeDoc seq id rev deleted
      (',' :: (DriveHandler.str "\"timestamp\":" ++ (DriveHandler.natChars ts ++ ['\x7d'])))
      = some { seq := seq, id := id, rev := rev, deleted := deleted, doc := none,
               timestamp := ts } := by
  simp only [DriveHandler.decodeDoc, strip_docTag_vs_tsTag, decodeFinish_exact]

theorem decodeTail_doc {d : String} (hd : DriveHandler.plainStr d = true)
    (seq : Nat) (id rev : String) (ts : Nat) :
    DriveHandler.decodeTail seq id rev
      (',' :: (DriveHandler.str "\"doc\":" ++ ('"' :: (DriveHandler.str d ++ '"' ::
        (',' :: (DriveHandler.str "\"timestamp\":"
          ++ (DriveHandler.natChars ts ++ ['\x7d'])))))))
      = some { seq := seq, id := id, rev := rev, deleted := false, doc := some d,
               timestamp := ts } := by
  simp only [DriveHandler.decodeTail, strip_delTag_vs_docTag, decodeDoc_some hd]

theorem decodeTail_ts (seq : Nat) (id rev : String) (ts : Nat) :
    DriveHandler.decodeTail seq id rev
      (',' :: (DriveHandler.str "\"timestamp\":" ++ (DriveHandler.natChars ts ++ ['\x7d'])))
      = some { seq := seq, id := id, rev := rev, deleted := false, doc := none,
               timestamp := ts } := by
  simp only [DriveHandler.decodeTail, strip_delTag_vs_tsTag, decodeDoc_none]

theorem decodeTail_del_doc {d : String} (hd : DriveHandler.plainStr d = true)
    (seq : Nat) (id rev : String) (ts : Nat) :
    DriveHandler.decodeTail seq id rev
      (',' :: (DriveHandler.str "\"deleted\":true"
        ++ (',' :: (DriveHandler.str "\"doc\":" ++ ('"' :: (DriveHandler.str d ++ '"' ::
          (',' :: (DriveHandler.str "\"timestamp\":"
            ++ (DriveHandler.natChars ts ++ ['\x7d'])))))))))
      = some { seq := seq, id := id, rev := rev, deleted := true, doc := some d,
               timestamp := ts } := by
  simp only [DriveHandler.decodeTail, strip_delTag, decodeDoc_some hd]

theorem decodeTail_del_ts (seq : Nat) (id rev : String) (ts : Nat) :
    DriveHandler.decodeTail seq id rev
      (',' :: (DriveHandler.str "\"deleted\":true"
        ++ (',' :: (DriveHandler.str "\"timestamp\":"
          ++ (DriveHandler.natChars ts ++ ['\x7d'])))))
      = some { seq := seq, id := id, rev := rev, deleted := true, doc := none,
               timestamp := ts } := by
  simp only [DriveHandler.decodeTail, strip_delTag, decodeDoc_none]

/-- Parsing inverts serialization on escape-free entries. -/
theorem decodeEntry_encodeEntry (e : ChangeEntry)
    (hp : DriveHandler.plainEntry e = true) :
    DriveHandler.decodeEntry (DriveHandler.encodeEntry e) = some e := by
  obtain ⟨seq, id, rev, deleted, doc, ts⟩ := e
  simp only [DriveHandler.plainEntry, Bool.and_eq_true] at hp
  obtain ⟨⟨hid, hrev⟩, hdoc⟩ := hp
  cases deleted with
  | false =>
    cases doc with
    | none =>
      have harr : DriveHandler.encodeEntry
          { seq := seq, id := id, rev := rev, deleted := false, doc := none,
            timestamp := ts }
          = DriveHandler.str "\x7b\"seq\":" ++ (DriveHandler.natChars seq
            ++ (',' :: (DriveHandler.str "\"id\":" ++ ('"' :: (DriveHandler.str id ++ '"'
            :: (',' :: (DriveHandler.str "\"rev\":" ++ ('"' :: (DriveHandler.str rev ++ '"'
            :: (',' :: (DriveHandler.str "\"timestamp\":"
            ++ (DriveHandler.natChars ts ++ ['\x7d'])))))))))))) := by
        simp [DriveHandler.encodeEntry, DriveHandler.jStrEnc,
          show DriveHandler.str ",\"id\":" = ',' :: DriveHandler.str "\"id\":" from rfl,
          show DriveHandler.str ",\"rev\":" = ',' :: DriveHandler.str "\"rev\":" from rfl,
          show DriveHandler.str ",\"timestamp\":"
            = ',' :: DriveHandler.str "\"timestamp\":" from rfl,
          List.append_assoc]
      rw [harr]
      simp only [DriveHandler.decodeEntry, stripExact_append_self, readNat_comma,
        strip_idTag, readJStr_exact hid, strip_revTag, readJStr_exact hrev, decodeTail_ts]
    | some d =>
      have hd : DriveHandler.plainStr d = true := hdoc
      have harr : DriveHandler.encodeEntry
          { seq := seq, id := id, rev := rev, deleted := false, doc := some d,
            timestamp := ts }
          = DriveHandler.str "\x7b\"seq\":" ++ (DriveHandler.natChars seq
            ++ (',' :: (DriveHandler.str "\"id\":" ++ ('"' :: (DriveHandler.str id ++ '"'
            :: (',' :: (DriveHandler.str "\"rev\":" ++ ('"' :: (DriveHandler.str rev ++ '"'
            :: (',' :: (DriveHandler.str "\"doc\":" ++ ('"' :: (DriveHandler.str d ++ '"'
            :: (',' :: (DriveHandler.str "\"timestamp\":"
            ++ (DriveHandler.natChars ts ++ ['\x7d'])))))))))))))))) := by
        simp [DriveHandler.encodeEntry, DriveHandler.jStrEnc,
          show DriveHandler.str ",\"id\":" = ',' :: DriveHandler.str "\"id\":" from rfl,
          show DriveHandler.str ",\"rev\":" = ',' :: DriveHandler.str "\"rev\":" from rfl,
          show DriveHandler.str ",\"doc\":" = ',' :: DriveHandler.str "\"doc\":" from rfl,
          show DriveHandler.str ",\"timestamp\":"
            = ',' :: DriveHandler.str "\"timestamp\":" from rfl,
          List.append_assoc]
      rw [harr]
      simp only [DriveHandler.decodeEntry, stripExact_append_self, readNat_comma,
        strip_idTag, readJStr_exact hid, strip_revTag, readJStr_exact hrev,
        decodeTail_doc hd]
  | true =>
    cases doc with
    | none =>
      have harr : DriveHandler.encodeEntry
          { seq := seq, id := id, rev := rev, deleted := true, doc := none,
            timestamp := ts }
          = DriveHandler.str "\x7b\"seq\":" ++ (DriveHandler.natChars seq
            ++ (',' :: (DriveHandler.str "\"id\":" ++ ('"' :: (DriveHandler.str id ++ '"'
            :: (',' :: (DriveHandler.str "\"rev\":" ++ ('"' :: (DriveHandler.str rev ++ '"'
            :: (',' :: (DriveHandler.str "\"deleted\":true"
            ++ (',' :: (DriveHandler.str "\"timestamp\":"
            ++ (DriveHandler.natChars ts ++ ['\x7d'])))))))))))))) := by
        simp [DriveHandler.encodeEntry, DriveHandler.jStrEnc,
          show DriveHandler.str ",\"id\":" = ',' :: DriveHandler.str "\"id\":" from rfl,
          show DriveHandler.str ",\"rev\":" = ',' :: DriveHandler.str "\"rev\":" from rfl,
          show DriveHandler.str ",\"deleted\":true"
            = ',' :: DriveHandler.str "\"deleted\":true" from rfl,
          show DriveHandler.str ",\"timestamp\":"
            = ',' :: DriveHandler.str "\"timestamp\":" from rfl,
          List.append_assoc]
      rw [harr]
      simp only [DriveHandler.decodeEntry, stripExact_append_self, readNat_comma,
        strip_idTag, readJStr_exact hid, strip_revTag, readJStr_exact hrev,
        decodeTail_del_ts]
    | some d =>
      have hd : DriveHandler.plainStr d = true := hdoc
      have harr : DriveHandler.encodeEntry
          { seq := seq, id := id, rev := rev, deleted := true, doc := some d,
            timestamp := ts }
          = DriveHandler.str "\x7b\"seq\":" ++ (DriveHandler.natChars seq
            ++ (',' :: (DriveHandler.str "\"id\":" ++ ('"' :: (DriveHandler.str id ++ '"'
            :: (',' :: (DriveHandler.str "\"rev\":" ++ ('"' :: (DriveHandler.str rev ++ '"'
            :: (',' :: (DriveHandler.str "\"deleted\":true"
            ++ (',' :: (DriveHandler.str "\"doc\":" ++ ('"' :: (DriveHandler.str d ++ '"'
            :: (',' :: (DriveHandler.str "\"timestamp\":"
            ++ (DriveHandler.natChars ts ++ ['\x7d'])))))))))))))))))) := by
        simp [DriveHandler.encodeEntry, DriveHandler.jStrEnc,
          show DriveHandler.str ",\"id\":" = ',' :: DriveHandler.str "\"id\":" from rfl,
          show DriveHandler.str ",\"rev\":" = ',' :: DriveHandler.str "\"rev\":" from rfl,
          show DriveHandler.str ",\"deleted\":true"
            = ',' :: DriveHandler.str "\"deleted\":true" from rfl,
          show DriveHandler.str ",\"doc\":" = ',' :: DriveHandler.str "\"doc\":" from rfl,
          show DriveHandler.str ",\"timestamp\":"
            = ',' :: DriveHandler.str "\"timestamp\":" from rfl,
          List.append_assoc]
      rw [harr]
      simp only [DriveHandler.decodeEntry, stripExact_append_self, readNat_comma,
        strip_idTag, readJStr_exact hid, strip_revTag, readJStr_exact hrev,
        decodeTail_del_doc hd]

theorem noNl_append {a b : DriveHandler.Chars} (ha : '\n' ∉ a) (hb : '\n' ∉ b) :
    '\n' ∉ a ++ b := by
  simp only [List.mem_append]
  exact fun h => h.elim ha hb

theorem not_nl_natChars (n : Nat) : '\n' ∉ DriveHandler.natChars n :=
  fun h => absurd (natChars_digits n _ h) (by decide)

theorem not_nl_jStrEnc {s : String} (hs : DriveHandler.plainStr s = true) :
    '\n' ∉ DriveHandler.jStrEnc s := by
  intro h
  rcases List.mem_cons.mp h with h1 | h1
  · exact absurd h1 (by decide)
  rcases List.mem_append.mp h1 with h2 | h2
  · exact (plainStr_facts hs _ h2).1 rfl
  · exact absurd (List.mem_singleton.mp h2) (by decide)

theorem encodeEntry_no_nl_chain (seq ts : Nat) (id rev : String)
    (g h : DriveHandler.Chars) (hid : DriveHandler.plainStr id = true)
    (hrev : DriveHandler.plainStr rev = true) (hg : '\n' ∉ g) (hh : '\n' ∉ h) :
    '\n' ∉ (DriveHandler.str "\x7b\"seq\":" ++ DriveHandler.natChars seq
      ++ DriveHandler.str ",\"id\":" ++ DriveHandler.jStrEnc id
      ++ DriveHandler.str ",\"rev\":" ++ DriveHandler.jStrEnc rev ++ g ++ h
      ++ DriveHandler.str ",\"timestamp\":" ++ DriveHandler.natChars ts ++ ['\x7d']) :=
  noNl_append (noNl_append (noNl_append (noNl_append (noNl_append (noNl_append
    (noNl_append (noNl_append (noNl_append (noNl_append (by decide)
      (not_nl_natChars seq)) (by decide)) (not_nl_jStrEnc hid)) (by decide))
      (not_nl_jStrEnc hrev)) hg) hh) (by decide)) (not_nl_natChars ts))
    (by decide)

theorem encodeEntry_no_nl (e : ChangeEntry) (hp : DriveHandler.plainEntry e = true) :
    '\n' ∉ DriveHandler.encodeEntry e := by
  obtain ⟨seq, id, rev, deleted, doc, ts⟩ := e
  simp only [DriveHandler.plainEntry, Bool.and_eq_true] at hp
  obtain ⟨⟨hid, hrev⟩, hdoc⟩ := hp
  cases deleted with
  | false =>
    cases doc with
    | none =>
      exact encodeEntry_no_nl_chain seq ts id rev [] [] hid hrev (by simp) (by simp)
    | some d =>
      exact encodeEntry_no_nl_chain seq ts id rev []
        (DriveHandler.str ",\"doc\":" ++ DriveHandler.jStrEnc d) hid hrev (by simp)
        (noNl_append (by decide) (not_nl_jStrEnc hdoc))
  | true =>
    cases doc with
    | none =>
      exact encodeEntry_no_nl_chain seq ts id rev
        (DriveHandler.str ",\"deleted\":true") [] hid hrev (by decide) (by simp)
    | some d =>
      exact encodeEntry_no_nl_chain seq ts id rev
        (DriveHandler.str ",\"deleted\":true")
        (DriveHandler.str ",\"doc\":" ++ DriveHandler.jStrEnc d) hid hrev (by decide)
        (noNl_append (by decide) (not_nl_jStrEnc hdoc))

theorem encodeEntry_brace_cons (e : ChangeEntry) :
    ∃ t, DriveHandler.encodeEntry e = '\x7b' :: t :=
  ⟨_, rfl⟩

theorem encodeEntry_brace_last (e : ChangeEntry) :
    ∃ t, DriveHandler.encodeEntry e = t ++ ['\x7d'] :=
  ⟨_, rfl⟩

theorem encodeEntry_ne_nil (e : ChangeEntry) : DriveHandler.encodeEntry e ≠ [] := by
  obtain ⟨t, ht⟩ := encodeEntry_brace_cons e
  rw [ht]
  simp

theorem dropLeadWs_brace {t : DriveHandler.Chars} :
    DriveHandler.dropLeadWs ('\x7b' :: t) = '\x7b' :: t := by
  simp [DriveHandler.dropLeadWs, List.dropWhile_cons]

theorem dropTrailWs_nl (x : DriveHandler.Chars) :
    DriveHandler.dropTrailWs (x ++ ['\n']) = DriveHandler.dropTrailWs x := by
  unfold DriveHandler.dropTrailWs
  rw [List.reverse_append]
  simp [List.dropWhile_cons]

theorem dropTrailWs_brace (x : DriveHandler.Chars) :
    DriveHandler.dropTrailWs (x ++ ['\x7d']) = x ++ ['\x7d'] := by
  unfold DriveHandler.dropTrailWs
  rw [List.reverse_append]
  simp [List.dropWhile_cons]

theorem intercalate_single (sep l : DriveHandler.Chars) :
    List.intercalate sep [l] = l := by
  simp [List.intercalate]

theorem intercalate_cons₂ (sep a b : DriveHandler.Chars) (t : List DriveHandler.Chars) :
    List.intercalate sep (a :: b :: t) = a ++ (sep ++ List.intercalate sep (b :: t)) := by
  simp only [List.intercalate]
  rw [show List.intersperse sep (a :: b :: t) = a :: sep :: List.intersperse sep (b :: t)
    from by simp [List.intersperse]]
  simp [List.flatten_cons, List.append_assoc]

theorem joinNl_brace_last : ∀ (cs : List ChangeEntry), cs ≠ [] →
    ∃ t, List.intercalate ['\n'] (cs.map DriveHandler.encodeEntry) = t ++ ['\x7d'] := by
  intro cs
  induction cs with
  | nil => intro h; exact absurd rfl h
  | cons c rest ih =>
    intro _
    cases rest with
    | nil =>
      simp only [List.map_cons, List.map_nil, intercalate_single]
      exact encodeEntry_brace_last c
    | cons r rs =>
      obtain ⟨t, ht⟩ := ih (by simp)
      simp only [List.map_cons] at ht ⊢
      rw [intercalate_cons₂, ht]
      exact ⟨DriveHandler.encodeEntry c ++ '\n' :: t, by simp [List.append_assoc]⟩

theorem decodeLines_map_encode : ∀ (cs : List ChangeEntry),
    (∀ e ∈ cs, DriveHandler.plainEntry e = true) →
    DriveHandler.decodeLines (cs.map DriveHandler.encodeEntry) = some cs := by
  intro cs
  induction cs with
  | nil => intro _; rfl
  | cons c rest ih =>
    intro hp
    simp only [List.map_cons, DriveHandler.decodeLines]
    rw [decodeEntry_encodeEntry c (hp c (List.mem_cons_self _ _)),
      ih (fun e he => hp e (List.mem_cons_of_mem _ he))]

theorem joinNl_head (cs : List ChangeEntry) (hne : cs ≠ []) :
    ∃ t, List.intercalate ['\n'] (cs.map DriveHandler.encodeEntry) = '\x7b' :: t := by
  cases cs with
  | nil => exact absurd rfl hne
  | cons c rest =>
    cases rest with
    | nil =>
      simp only [List.map_cons, List.map_nil, intercalate_single]
      exact encodeEntry_brace_cons c
    | cons r rs =>
      simp only [List.map_cons]
      rw [intercalate_cons₂]
      obtain ⟨t, ht⟩ := encodeEntry_brace_cons c
      rw [ht, List.cons_append]
      exact ⟨_, rfl⟩

theorem jsTrim_content (cs : List ChangeEntry) (hne : cs ≠ []) :
    DriveHandler.jsTrim (DriveHandler.writeChangeContent cs)
      = List.intercalate ['\n'] (cs.map DriveHandler.encodeEntry) := by
  obtain ⟨t, ht⟩ := joinNl_head cs hne
  obtain ⟨t2, ht2⟩ := joinNl_brace_last cs hne
  unfold DriveHandler.writeChangeContent DriveHandler.jsTrim
  have hlead : DriveHandler.dropLeadWs
      (List.intercalate ['\n'] (cs.map DriveHandler.encodeEntry) ++ ['\n'])
      = List.intercalate ['\n'] (cs.map DriveHandler.encodeEntry) ++ ['\n'] := by
    rw [ht, List.cons_append]
    exact dropLeadWs_brace
  rw [hlead, dropTrailWs_nl, ht2, dropTrailWs_brace]

/-- Counterexample to claim C5: a single-entry batch, written and parsed
back, yields the lone parsed object, not the one-element list the
round-trip claim promises, because the trimmed content has no newline, so
fetchFile takes the single-line JSON branch. -/
theorem C5_counterexample :
    DriveHandler.fetchFileParse (DriveHandler.writeChangeContent [Samples.cex5])
        = .obj Samples.cex5
    ∧ DriveHandler.fetchFileParse (DriveHandler.writeChangeContent [Samples.cex5])
        ≠ .arr [Samples.cex5] :=
  ⟨by decide, by decide⟩

/-- Claim C5 amended: writing a batch as a newline-delimited change log
and parsing the object back returns exactly the original entries in order
for every batch of at least two escape-free entries; a single-entry batch
instead parses back to the single entry object (single-line JSON), not to
a one-element list. -/
theorem C5_roundtrip (cs : List ChangeEntry)
    (hp : ∀ e ∈ cs, DriveHandler.plainEntry e = true) :
    (2 ≤ cs.length →
      DriveHandler.fetchFileParse (DriveHandler.writeChangeContent cs)
        = .arr cs)
    ∧ (∀ e, cs = [e] →
      DriveHandler.fetchFileParse (DriveHandler.writeChangeContent cs)
        = .obj e) := by
  constructor
  · intro hlen
    obtain ⟨c, rest, rfl⟩ : ∃ c rest, cs = c :: rest := by
      cases cs with
      | nil => simp at hlen
      | cons c rest => exact ⟨c, rest, rfl⟩
    obtain ⟨r, rs, rfl⟩ : ∃ r rs, rest = r :: rs := by
      cases rest with
      | nil => simp at hlen
      | cons r rs => exact ⟨r, rs, rfl⟩
    have hne : (c :: r :: rs : List ChangeEntry) ≠ [] := by simp
    have htrim := jsTrim_content (c :: r :: rs) hne
    obtain ⟨t, ht⟩ := joinNl_head (c :: r :: rs) hne
    have htake : (List.intercalate ['\n']
        ((c :: r :: rs).map DriveHandler.encodeEntry)).take 1 = ['\x7b'] := by
      rw [ht]
      rfl
    have hcontains : (List.intercalate ['\n']
        ((c :: r :: rs).map DriveHandler.encodeEntry)).contains '\n' = true := by
      simp only [List.map_cons]
      rw [intercalate_cons₂]
      simp
    have hsplit : (List.intercalate ['\n']
        ((c :: r :: rs).map DriveHandler.encodeEntry)).splitOn '\n'
        = (c :: r :: rs).map DriveHandler.encodeEntry := by
      refine List.splitOn_intercalate ((c :: r :: rs).map DriveHandler.encodeEntry)
        '\n' ?_ (by simp)
      intro l hl
      obtain ⟨e, he, rfl⟩ := List.mem_map.mp hl
      exact encodeEntry_no_nl e (hp e he)
    have hfilter : ((c :: r :: rs).map DriveHandler.encodeEntry).filter
        (fun l => l ≠ []) = (c :: r :: rs).map DriveHandler.encodeEntry := by
      refine List.filter_eq_self.mpr ?_
      intro l hl
      obtain ⟨e, he, rfl⟩ := List.mem_map.mp hl
      simp [encodeEntry_ne_nil e]
    have hdecode := decodeLines_map_encode (c :: r :: rs) hp
    simp only [DriveHandler.fetchFileParse, htrim, htake, hcontains, hsplit, hfilter,
      hdecode, if_true]
  · intro e hcs
    subst hcs
    have hpe : DriveHandler.plainEntry e = true := hp e (List.mem_singleton.mpr rfl)
    have htrim : DriveHandler.jsTrim (DriveHandler.writeChangeContent [e])
        = DriveHandler.encodeEntry e := by
      have := jsTrim_content [e] (by simp)
      rwa [List.map_cons, List.map_nil, intercalate_single] at this
    obtain ⟨t, ht⟩ := encodeEntry_brace_cons e
    have htake : (DriveHandler.encodeEntry e).take 1 = ['\x7b'] := by
      rw [ht]
      rfl
    have hcontains : (DriveHandler.encodeEntry e).contains '\n' = false := by
      simp [encodeEntry_no_nl e hpe]
    have hdecode := decodeEntry_encodeEntry e hpe
    simp only [DriveHandler.fetchFileParse, htrim, htake, hcontains, hdecode, if_true]
    simp

/-- Witness for C5: a two-entry batch round-trips to the original list; a
single-entry batch parses to the lone object. -/
theorem C5_roundtrip_witness :
    DriveHandler.fetchFileParse
        (DriveHandler.writeChangeContent [Samples.cex5, Samples.cex5b])
        = .arr [Samples.cex5, Samples.cex5b]
    ∧ DriveHandler.fetchFileParse (DriveHandler.writeChangeContent [Samples.cex5b])
        = .obj Samples.cex5b :=
  ⟨(C5_roundtrip [Samples.cex5, Samples.cex5b] (by decide)).1 (by decide),
   (C5_roundtrip [Samples.cex5b] (by decide)).2 Samples.cex5b rfl⟩
